import Mathlib

/-
Verification of the gravitas language toolchain core (analyzer, bytecode
generator, VM flow control) against its specification.

Shallow embedding notes:
- `ProgramText` (interned program text) is modelled as `String`.
- `Number` is `f64` in the source; the claims under study concern control
  flow, stack discipline and emitted opcode shapes, never float arithmetic,
  so numbers are modelled as `Int` (all numbers the claims touch are
  integral jump distances or literal payloads carried around unchanged).
- Spans (`Range<usize>`) are pairs of naturals.
- Rust's `HashMap<ProgramText, bool>` in the analyzer is modelled as an
  association list where insertion conses a binding and lookup takes the
  first match; this is observationally the map behaviour the analyzer uses
  (it only ever gets and inserts).
-/

namespace Gravitas

set_option maxHeartbeats 1000000

/-- Source span, from `Range<usize>` on AST nodes. -/
structure Span where
  lo : Nat
  hi : Nat
deriving DecidableEq, Repr

/-- Atomic values of the parser (crates/parser/src/parse/expr/atom.rs). -/
inductive AtomicValue where
  | boolean (b : Bool)
  | number (n : Int)
  | text (t : String)
  | identifier (name : String)
deriving DecidableEq, Repr

/-- Binary operator kinds; the generator maps them to opcodes via
`op.kind.into()`. -/
inductive BinOp where
  | plus
  | minus
  | star
  | slash
  | percent
  | eqEq
  | bangEq
  | less
  | lessEq
  | greater
  | greaterEq
deriving DecidableEq, Repr

/-- Unary operator kinds. -/
inductive UnOp where
  | bang
  | minus
deriving DecidableEq, Repr

mutual

/-- Expression AST (parser::parse::expr::ExprKind together with the span of
the wrapping node; the `kind`/`span` indirection of the Rust `Expr` struct is
flattened into each constructor, the span being the last field). -/
inductive Expr where
  | atom (v : AtomicValue) (span : Span)
  | binary (lhs : Expr) (op : BinOp) (rhs : Expr) (span : Span)
  | unary (op : UnOp) (rhs : Expr) (span : Span)
  | block (stmts : List Stmt) (returnExpr : Option Expr) (span : Span)
  | whileE (condition : Expr) (body : Expr) (span : Span)
  | continueE (span : Span)
  | breakE (returnExpr : Option Expr) (span : Span)
  | returnE (value : Option Expr) (span : Span)
  | call (callee : Expr) (args : List Expr) (span : Span)
  | ifE (condition : Expr) (body : Expr) (elseExpr : Option Expr) (span : Span)
  | array (values : List Expr) (span : Span)
  | index (target : Expr) (position : Expr) (span : Span)
  | getProperty (target : Expr) (isMethodCall : Bool) (identifier : String) (span : Span)
  | setProperty (target : Expr) (value : Expr) (identifier : String) (span : Span)
  | objectLiteral (properties : List (String × Expr)) (span : Span)
  | assignment (target : Expr) (value : Expr) (span : Span)
  | closure (params : List String) (body : Expr) (span : Span)

/-- Statement AST (parser::parse::stmt::StmtKind with span flattened in). -/
inductive Stmt where
  | variableDeclaration (name : String) (expr : Expr) (span : Span)
  | functionDeclaration (name : String) (params : List String) (body : Expr) (span : Span)
  | expression (expr : Expr) (span : Span)

end

/-! ## Analyzer (crates/analyzer/src/lib.rs) -/

/-- Static error causes (parser::utils::error::ParseErrorCause as used by
the analyzer, plus the causes the spec lists in its section 6). -/
inductive ParseErrorCause where
  | notDefined
  | usedBeforeInitialization
  | usedOutsideLoop
  | returnUsedOutsideFunction
  | usedOutsideClass
  | cantInheritFromItself
  | superclassDoesntExist
deriving DecidableEq, Repr

/-- A static error: span plus cause. The analyzer sets `span_start` and
`span_end` both to the offending node's span. -/
structure ParseErr where
  spanStart : Span
  spanEnd : Span
  cause : ParseErrorCause
deriving DecidableEq, Repr

/-- Analyzer scope tags (analyzer `ScopeType`). -/
inductive ScopeType where
  | function
  | loop
  | global
deriving DecidableEq, Repr

/-- Analyzer scope: a tag and the variables declared in it, each mapped to
its initialization state (`true` = initialized). -/
structure Scope where
  scopeType : ScopeType
  vars : List (String × Bool)
deriving DecidableEq, Repr

/-- Analyzer state: the scope stack. The head of the list is the innermost
scope (the Rust code pushes to and pops from the end of a `Vec`). -/
structure Analyzer where
  scopes : List Scope
deriving DecidableEq, Repr

/-- Fresh scope of a given type (Scope::new). -/
def Scope.new (t : ScopeType) : Scope := ⟨t, []⟩

/-- Analyzer::new seeds the bottom (global) scope with the native function
names, all marked initialized. -/
def Analyzer.new (natives : List String) : Analyzer :=
  ⟨[⟨ScopeType.global, natives.map (fun n => (n, true))⟩]⟩

/-- The innermost scope (current_scope; `last().unwrap()` in Rust, which is
never called on an empty stack starting from `Analyzer::new`). -/
def Analyzer.currentScope (a : Analyzer) : Scope :=
  a.scopes.headD (Scope.new ScopeType.global)

/-- Insert a variable with its initialization state into the innermost
scope (declare_var). -/
def Analyzer.declareVar (a : Analyzer) (name : String) (initialized : Bool) : Analyzer :=
  match a.scopes with
  | [] => a
  | s :: rest => ⟨{ s with vars := (name, initialized) :: s.vars } :: rest⟩

/-- Look a name up walking scopes from innermost outward (find_var). -/
def Analyzer.findVar (a : Analyzer) (name : String) : Option Bool :=
  go a.scopes
where
  /-- Walk the scope stack, innermost first. -/
  go : List Scope → Option Bool
    | [] => none
    | s :: rest =>
      match lookupVar s.vars with
      | some b => some b
      | none => go rest
  /-- First binding of the name in one scope's variable map. -/
  lookupVar : List (String × Bool) → Option Bool
    | [] => none
    | (n, b) :: rest => if n = name then some b else lookupVar rest

/-- Push a fresh scope (enter_scope). -/
def Analyzer.enterScope (a : Analyzer) (t : ScopeType) : Analyzer :=
  ⟨Scope.new t :: a.scopes⟩

/-- Pop the innermost scope (leave_scope). -/
def Analyzer.leaveScope (a : Analyzer) : Analyzer :=
  ⟨a.scopes.tail⟩

/-- Build the error the analyzer's `err` closure builds: both span ends are
the node's span. -/
def mkErr (sp : Span) (cause : ParseErrorCause) : ParseErr :=
  ⟨sp, sp, cause⟩

/-- Result of one visit: the mutated analyzer plus an optional error. Rust's
`self.visit_…(…)?` keeps the mutations made so far when it early-returns,
which the pair captures. -/
abbrev AnalyzeStep := Analyzer × Option ParseErr

mutual

/-- Analyzer::visit_expr, translated arm by arm. Note that `While` and
`Closure` leave their pushed scope on the stack when the body errors,
because the `?` operator returns before `leave_scope()` runs. -/
def visitExpr (a : Analyzer) (e : Expr) : AnalyzeStep :=
  match e with
  | .atom v sp =>
    match v with
    | .identifier name =>
      match a.findVar name with
      | some false => (a, some (mkErr sp .usedBeforeInitialization))
      | some true => (a, none)
      | none => (a, some (mkErr sp .notDefined))
    | _ => (a, none)
  | .binary lhs _ rhs _ =>
    match visitExpr a lhs with
    | (a1, some er) => (a1, some er)
    | (a1, none) => visitExpr a1 rhs
  | .unary _ rhs _ => visitExpr a rhs
  | .block stmts returnExpr _ =>
    match visitStmts a stmts with
    | (a1, some er) => (a1, some er)
    | (a1, none) => visitOpt a1 returnExpr
  | .whileE condition body _ =>
    match visitExpr a condition with
    | (a1, some er) => (a1, some er)
    | (a1, none) =>
      match visitExpr (a1.enterScope .loop) body with
      | (a2, some er) => (a2, some er)
      | (a2, none) => (a2.leaveScope, none)
  | .continueE sp =>
    if a.currentScope.scopeType = .loop then (a, none)
    else (a, some (mkErr sp .usedOutsideLoop))
  | .breakE returnExpr sp =>
    if a.currentScope.scopeType = .loop then visitOpt a returnExpr
    else (a, some (mkErr sp .usedOutsideLoop))
  | .returnE value sp =>
    if a.currentScope.scopeType = .function then visitOpt a value
    else (a, some (mkErr sp .returnUsedOutsideFunction))
  | .call callee args _ =>
    match visitExpr a callee with
    | (a1, some er) => (a1, some er)
    | (a1, none) => visitExprs a1 args
  | .ifE condition body elseExpr _ =>
    match visitExpr a condition with
    | (a1, some er) => (a1, some er)
    | (a1, none) =>
      match visitExpr a1 body with
      | (a2, some er) => (a2, some er)
      | (a2, none) => visitOpt a2 elseExpr
  | .array values _ => visitExprs a values
  | .index target position _ =>
    match visitExpr a target with
    | (a1, some er) => (a1, some er)
    | (a1, none) => visitExpr a1 position
  | .getProperty target _ _ _ => visitExpr a target
  | .setProperty target value _ _ =>
    match visitExpr a target with
    | (a1, some er) => (a1, some er)
    | (a1, none) => visitExpr a1 value
  | .objectLiteral properties _ => visitProps a properties
  | .assignment target value _ =>
    match visitExpr a target with
    | (a1, some er) => (a1, some er)
    | (a1, none) => visitExpr a1 value
  | .closure _ body _ =>
    match visitExpr (a.enterScope .function) body with
    | (a1, some er) => (a1, some er)
    | (a1, none) => (a1.leaveScope, none)
termination_by sizeOf e

/-- Visiting an optional expression: the `if let Some(e) = … { visit(e)? }`
pattern. -/
def visitOpt (a : Analyzer) (o : Option Expr) : AnalyzeStep :=
  match o with
  | some e => visitExpr a e
  | none => (a, none)
termination_by sizeOf o

/-- Visiting a list of expressions in order with early return (the `for`
loops with `?` inside Call and Array). -/
def visitExprs (a : Analyzer) (es : List Expr) : AnalyzeStep :=
  match es with
  | [] => (a, none)
  | e :: rest =>
    match visitExpr a e with
    | (a1, some er) => (a1, some er)
    | (a1, none) => visitExprs a1 rest
termination_by sizeOf es

/-- Visiting the property values of an object literal in order. -/
def visitProps (a : Analyzer) (ps : List (String × Expr)) : AnalyzeStep :=
  match ps with
  | [] => (a, none)
  | (_, v) :: rest =>
    match visitExpr a v with
    | (a1, some er) => (a1, some er)
    | (a1, none) => visitProps a1 rest
termination_by sizeOf ps

/-- Analyzer::visit_stmt. A variable declaration declares the name
uninitialized, visits the initializer, then re-declares it initialized;
a function declaration leaks its Function scope when the body errors. -/
def visitStmt (a : Analyzer) (s : Stmt) : AnalyzeStep :=
  match s with
  | .variableDeclaration name expr _ =>
    let a0 := a.declareVar name false
    match visitExpr a0 expr with
    | (a1, some er) => (a1, some er)
    | (a1, none) => (a1.declareVar name true, none)
  | .functionDeclaration name _ body _ =>
    let a0 := (a.declareVar name true).enterScope .function
    match visitExpr a0 body with
    | (a1, some er) => (a1, some er)
    | (a1, none) => (a1.leaveScope, none)
  | .expression expr _ => visitExpr a expr
termination_by sizeOf s

/-- Visiting a list of statements in order with early return (the `for`
loop inside Block). -/
def visitStmts (a : Analyzer) (ss : List Stmt) : AnalyzeStep :=
  match ss with
  | [] => (a, none)
  | s :: rest =>
    match visitStmt a s with
    | (a1, some er) => (a1, some er)
    | (a1, none) => visitStmts a1 rest
termination_by sizeOf ss

end

/-- Analyzer::analyze: visit each top-level statement, pushing the error a
statement produced (if any) and continuing with the next statement. Returns
the final analyzer state and the accumulated error list; the Rust function
wraps a non-empty list in `Err`. -/
def analyzeStmts (a : Analyzer) (ss : List Stmt) : Analyzer × List ParseErr :=
  match ss with
  | [] => (a, [])
  | s :: rest =>
    match visitStmt a s with
    | (a1, some er) =>
      let (a2, es) := analyzeStmts a1 rest
      (a2, er :: es)
    | (a1, none) => analyzeStmts a1 rest

/-- Top-level analyze entry point, from `Analyzer::new` seeded with the
native function names. -/
def analyze (natives : List String) (ast : List Stmt) : List ParseErr :=
  (analyzeStmts (Analyzer.new natives) ast).2



/-! ## Value and instruction model (crates/bytecode) -/

/-- Memory addresses, spec section 3.5 and crates/bytecode usages. -/
inductive MemoryAddress where
  | local (slot : Nat)
  | upvalue (index : Nat) (isRef : Bool)
  | global (name : String)
deriving DecidableEq, Repr

/-- Chunk constants (crates/bytecode/src/chunk.rs `Constant`). -/
inductive Constant where
  | memoryAddress (addr : MemoryAddress)
  | number (n : Int)
  | string (s : String)
  | bool (b : Bool)
  | globalPointer (p : Nat)
deriving DecidableEq, Repr

/-- Opcodes. The payload-carrying variants are taken from their uses in
crates/bytecode (Jif/Jp/Break carry a signed offset, Block/CreateClosure/
CreateObject/SetProperty a count, GetProperty the bind-method flag); the
payload-free arithmetic and comparison variants follow the spec's table in
section 3.3. -/
inductive Opcode where
  | Constant (i : Nat)
  | True
  | False
  | Null
  | Add
  | Sub
  | Mul
  | Div
  | Mod
  | Eq
  | Neq
  | Lt
  | Le
  | Gt
  | Ge
  | Not
  | Negate
  | Jif (offset : Int)
  | Jp (offset : Int)
  | Block (count : Nat)
  | Break (offset : Int)
  | Return
  | Call
  | Get
  | Asg
  | CreateClosure (n : Nat)
  | CreateObject (n : Nat)
  | GetProperty (bindMethod : Bool)
  | SetProperty (arity : Nat)
deriving DecidableEq, Repr

/-- A chunk: opcode stream plus constant pool
(crates/bytecode/src/chunk.rs). -/
structure Chunk where
  opcodes : List Opcode
  constants : List Constant
deriving DecidableEq, Repr

/-- Chunk::write_opcode appends an opcode. -/
def Chunk.writeOpcode (c : Chunk) (op : Opcode) : Chunk :=
  { c with opcodes := c.opcodes ++ [op] }

/-- Chunk::write_constant pushes the constant and emits `Constant(i)` where
`i` is the index the constant just received. -/
def Chunk.writeConstant (c : Chunk) (k : Constant) : Chunk :=
  ⟨c.opcodes ++ [.Constant c.constants.length], c.constants ++ [k]⟩

/-- An upvalue descriptor, fields as read by the FunctionDeclaration arm of
the statement generator (is_local, local_index, upvalue_index, is_ref). -/
structure Upvalue where
  isLocal : Bool
  localIndex : Nat
  upvalueIndex : Nat
  isRef : Bool
deriving DecidableEq, Repr

/-- A compiled function, spec section 3.7: name, arity, chunk, upvalue
descriptors. `GlobalItem` has `Function` as its only variant, so globals are
modelled directly as functions. -/
structure Function where
  name : String
  arity : Nat
  chunk : Chunk
  upvalues : List Upvalue
deriving DecidableEq, Repr

/-! ## VM flow control (crates/vm/src/flow_control.rs) -/

/-- Runtime values (crates/vm/src/runtime_value.rs). Native functions are
identified by name; heap pointers are indices. -/
inductive RuntimeValue where
  | number (n : Int)
  | string (s : String)
  | bool (b : Bool)
  | memoryAddress (addr : MemoryAddress)
  | globalPointer (p : Nat)
  | heapPointer (p : Nat)
  | nativeFunction (name : String)
  | null
deriving DecidableEq, Repr

/-- Runtime error causes touched by the flow-control ops (the spec's
section 4.3 error taxonomy names ExpectedAddressValue and stack
underflow). -/
inductive RuntimeErrorCause where
  | expectedAddressValue
  | emptyStack
  | ipOutOfRange
deriving DecidableEq, Repr

/-- The slice of VM state the flow-control ops read and write: the operand
stack (head = top) and the instruction pointer. -/
structure VMState where
  stack : List RuntimeValue
  ip : Nat
deriving DecidableEq, Repr

/-- Modelled from the spec: `pop_two_operands` is not in src/. It pops the
top of the operand stack and then the value below it, returning them in
that order; the in-src `op_jif` test (stack `[127, false, 3]` jumping by 3
and leaving 127) pins the first component as the top of the stack. -/
def popTwoOperands (s : VMState) : Except RuntimeErrorCause (RuntimeValue × RuntimeValue × VMState) :=
  match s.stack with
  | a :: b :: rest => .ok (a, b, { s with stack := rest })
  | _ => .error .emptyStack

/-- VM::expect_address: a jump distance must be a number
(crates/vm/src/flow_control.rs). -/
def expectAddress (v : RuntimeValue) : Except RuntimeErrorCause Int :=
  match v with
  | .number d => .ok d
  | _ => .error .expectedAddressValue

/-- Modelled from the spec: `RuntimeValue::eq` is not in src/; section 3.3
describes `Eq` as value comparison, modelled as structural equality. The
claims only compare against `Bool(false)`. -/
def runtimeValueEq (x y : RuntimeValue) : Bool :=
  x == y

/-- Modelled from the spec: `move_pointer` is not in src/; jumps move the
instruction pointer by their signed distance, failing if the pointer would
leave the address space. -/
def movePointer (s : VMState) (distance : Int) : Except RuntimeErrorCause VMState :=
  let target : Int := (s.ip : Int) + distance
  if target < 0 then .error .ipOutOfRange
  else .ok { s with ip := target.toNat }

/-- VM::op_jif (crates/vm/src/flow_control.rs): pop two operands — the jump
distance on top and the condition below it — check the distance is a
number, and move the instruction pointer by it when the condition equals
`false`. -/
def opJif (s : VMState) : Except RuntimeErrorCause VMState :=
  match popTwoOperands s with
  | .error c => .error c
  | .ok (jumpValue, condition, s1) =>
    match expectAddress jumpValue with
    | .error c => .error c
    | .ok distance =>
      if runtimeValueEq condition (.bool false) then movePointer s1 distance
      else .ok s1

/-! ## Bytecode generator (crates/bytecode/src/expr/mod.rs and
stmt/mod.rs). The generator's state module, `BytecodeGenerator::new`, the
patch helpers and the atom generator are not in src/; those parts are
modelled from the spec (section 4.2) and are marked as such. -/

/-- Generator scope tags (crates/bytecode state::ScopeType; only `Block` is
used by the code in src/, the other tags follow the spec). -/
inductive GenScopeType where
  | block
  | function
  | loop
deriving DecidableEq, Repr

/-- Modelled from the spec (section 4.2 scope tracking): a generator scope
records the chunk position at scope entry and the locals declared in it
(`declared` is their count). -/
structure GenScope where
  scopeType : GenScopeType
  startingIndex : Nat
  locals : List String
deriving DecidableEq, Repr

/-- An in-progress function: name, arity and the chunk being emitted into. -/
structure FnCtx where
  name : String
  arity : Nat
  chunk : Chunk
deriving DecidableEq, Repr

/-- Generator state, modelled from the spec's compilation state (section
4.2): a stack of in-progress functions with the innermost one currently
emitting (`current` plus `enclosing` is that non-empty stack), a scope
stack shared across functions, the globals vector, and the upvalue
descriptors collected for the function most recently worked on
(`pendingUpvalues`, read back by `scope_upvalues()` in the
FunctionDeclaration arm after the function context has been popped). -/
structure GenState where
  current : FnCtx
  enclosing : List FnCtx
  scopes : List GenScope
  globals : List Function
  pendingUpvalues : List Upvalue
deriving DecidableEq, Repr

/-- Modelled from the spec: `curr_index()` is the chunk position about to
be written, i.e. the number of opcodes emitted so far; this is the reading
under which the patch formula `current_index − patch_index − 1` reproduces
the in-src test `it_patches_opcodes`. -/
def GenState.currIndex (s : GenState) : Nat :=
  s.current.chunk.opcodes.length

/-- Write an opcode into the currently emitting chunk. -/
def GenState.writeOpcode (s : GenState) (op : Opcode) : GenState :=
  { s with current := { s.current with chunk := s.current.chunk.writeOpcode op } }

/-- Write a constant into the currently emitting chunk (pool entry plus a
`Constant(i)` opcode). -/
def GenState.writeConstant (s : GenState) (k : Constant) : GenState :=
  { s with current := { s.current with chunk := s.current.chunk.writeConstant k } }

/-- A patch handle: the index of the placeholder instruction. -/
structure Patch where
  index : Nat
deriving DecidableEq, Repr

/-- emit_patch writes the placeholder opcode and returns its handle. -/
def GenState.emitPatch (s : GenState) (op : Opcode) : GenState × Patch :=
  (s.writeOpcode op, ⟨s.currIndex⟩)

/-- Replace a jump placeholder's payload (the patchable opcodes mirror the
earlier iteration's `Opcode::patch` in src/src/bytecode/opcode.rs). -/
def patchOpcode (op : Opcode) (v : Int) : Opcode :=
  match op with
  | .Jif _ => .Jif v
  | .Jp _ => .Jp v
  | .Break _ => .Break v
  | o => o

/-- Modelled from the spec: patching overwrites the placeholder's payload
with `current_index − patch_index − 1` (validated against the in-src test
`it_patches_opcodes`, which patches `Jif(0)` at index 0 to `Jif(2)` after
two more opcodes were emitted). -/
def GenState.patch (s : GenState) (p : Patch) : GenState :=
  let ops := s.current.chunk.opcodes
  let v : Int := (ops.length : Int) - (p.index : Int) - 1
  match ops.get? p.index with
  | some op =>
    { s with current := { s.current with
        chunk := { s.current.chunk with opcodes := ops.set p.index (patchOpcode op v) } } }
  | none => s

/-- enter_scope pushes a fresh scope recording the current chunk position. -/
def GenState.enterScope (s : GenState) (t : GenScopeType) : GenState :=
  { s with scopes := ⟨t, s.currIndex, []⟩ :: s.scopes }

/-- leave_scope pops the innermost scope. -/
def GenState.leaveScope (s : GenState) : GenState :=
  { s with scopes := s.scopes.tail }

/-- The innermost generator scope. -/
def GenState.currentScope (s : GenState) : GenScope :=
  s.scopes.headD ⟨.block, 0, []⟩

/-- state.declare_var records a local in the innermost scope. -/
def GenState.declareVar (s : GenState) (name : String) : GenState :=
  match s.scopes with
  | [] => s
  | sc :: rest => { s with scopes := { sc with locals := sc.locals ++ [name] } :: rest }

/-- state.declared(): number of locals declared in the innermost scope. -/
def GenState.declared (s : GenState) : Nat :=
  s.currentScope.locals.length

/-- state.scope_upvalues(): the descriptors of the function most recently
compiled (see `GenState.pendingUpvalues`). -/
def GenState.scopeUpvalues (s : GenState) : List Upvalue :=
  s.pendingUpvalues

/-- Modelled from the spec: new_function opens a fresh function context
with an empty chunk, pushes a Function scope for its frame, and starts a
fresh upvalue-descriptor collection. -/
def GenState.newFunction (s : GenState) (name : String) (arity : Nat) : GenState :=
  { s with
    enclosing := s.current :: s.enclosing
    current := ⟨name, arity, ⟨[], []⟩⟩
    scopes := ⟨.function, 0, []⟩ :: s.scopes
    pendingUpvalues := [] }

/-- declare_global: declare the function's name as a variable, push the
item onto the globals vector and return its index. -/
def GenState.declareGlobal (s : GenState) (f : Function) : GenState × Nat :=
  (({ s with globals := s.globals ++ [f] }).declareVar f.name, s.globals.length)

/-- Modelled from the spec: the constructor's reserved name
(`common::CONSTRUCTOR_NAME` is not in src/); the claims only compare a
compiled method's name against it, so the concrete spelling is
irrelevant. -/
def CONSTRUCTOR_NAME : String := "constructor"

/-- Last-occurrence position of a name in a local list (shadowing picks the
most recent declaration, as the earlier iteration's `rposition` does). -/
def rposition (l : List String) (name : String) : Option Nat :=
  match l with
  | [] => none
  | x :: rest =>
    match rposition rest name with
    | some i => some (i + 1)
    | none => if x = name then some 0 else none

/-- The scopes belonging to the currently emitting function's frame: the
scopes down to and including its own Function scope. -/
def frameScopes (scopes : List GenScope) : List GenScope :=
  match scopes with
  | [] => []
  | sc :: rest => if sc.scopeType = .function then [sc] else sc :: frameScopes rest

/-- The scopes outside the currently emitting function's frame. -/
def outerScopes (scopes : List GenScope) : List GenScope :=
  match scopes with
  | [] => []
  | sc :: rest => if sc.scopeType = .function then rest else outerScopes rest

/-- Modelled from the spec (section 4.2 name resolution, step 1): resolve a
name to a frame-local slot, outermost frame scope first so parameters get
the lowest slots. -/
def resolveFrameLocal (scopes : List GenScope) (name : String) : Option Nat :=
  rposition (((frameScopes scopes).reverse).flatMap GenScope.locals) name

/-- Modelled from the spec (section 4.2 name resolution, step 2,
single-boundary case): find the name as a local of an enclosing function,
returning its index in the owning scope. -/
def resolveOuterLocal (scopes : List GenScope) (name : String) : Option Nat :=
  go (outerScopes scopes)
where
  /-- Walk the outer scopes innermost first. -/
  go : List GenScope → Option Nat
    | [] => none
    | sc :: rest =>
      match rposition sc.locals name with
      | some i => some i
      | none => go rest

/-- Index of the first global item carrying the name. -/
def globalIndexOf (gs : List Function) (name : String) : Option Nat :=
  match gs with
  | [] => none
  | f :: rest =>
    if f.name = name then some 0
    else (globalIndexOf rest name).map (· + 1)

/-- Success flag paired with the state; the Rust generator's
`BytecodeGenerationResult` with the partially mutated state kept on
failure. -/
abbrev GenResult := GenState × Bool

/-- Modelled from the spec (section 4.2 name resolution): an identifier
becomes a Local address constant, an Upvalue address constant (recording a
descriptor), or a GlobalPointer constant, in that order of preference;
otherwise generation fails. Literal atoms push themselves: numbers and
texts through the constant pool, booleans as `True`/`False` (the bytecode
crate's atom generator is not in src/). -/
def genAtom (s : GenState) (v : AtomicValue) : GenResult :=
  match v with
  | .number n => (s.writeConstant (.number n), true)
  | .text t => (s.writeConstant (.string t), true)
  | .boolean b => (s.writeOpcode (if b then .True else .False), true)
  | .identifier name =>
    match resolveFrameLocal s.scopes name with
    | some slot => (s.writeConstant (.memoryAddress (.local slot)), true)
    | none =>
      match resolveOuterLocal s.scopes name with
      | some localIndex =>
        let idx := s.pendingUpvalues.length
        let s1 := { s with pendingUpvalues := s.pendingUpvalues ++ [(⟨true, localIndex, idx, true⟩ : Upvalue)] }
        (s1.writeConstant (.memoryAddress (.upvalue idx true)), true)
      | none =>
        match globalIndexOf s.globals name with
        | some i => (s.writeConstant (.globalPointer i), true)
        | none => (s, false)

/-- Binary operator lowering (`op.kind.into()`), following the spec's
opcode table. -/
def binOpcode (op : BinOp) : Opcode :=
  match op with
  | .plus => .Add
  | .minus => .Sub
  | .star => .Mul
  | .slash => .Div
  | .percent => .Mod
  | .eqEq => .Eq
  | .bangEq => .Neq
  | .less => .Lt
  | .lessEq => .Le
  | .greater => .Gt
  | .greaterEq => .Ge

/-- Unary operator lowering. -/
def unOpcode (op : UnOp) : Opcode :=
  match op with
  | .bang => .Not
  | .minus => .Negate

/-- The MemoryAddress constant the FunctionDeclaration arm emits for one
upvalue descriptor: a Local address for an `is_local` descriptor, an
Upvalue address otherwise (crates/bytecode/src/stmt/mod.rs). -/
def upvalueAddressConstant (u : Upvalue) : Constant :=
  if u.isLocal then .memoryAddress (.local u.localIndex)
  else .memoryAddress (.upvalue u.upvalueIndex u.isRef)

/-- Write a list of constants in order. -/
def writeConstants (s : GenState) (ks : List Constant) : GenState :=
  match ks with
  | [] => s
  | k :: rest => writeConstants (s.writeConstant k) rest

/-- Declare a list of variables in order. -/
def declareVars (s : GenState) (names : List String) : GenState :=
  match names with
  | [] => s
  | n :: rest => declareVars (s.declareVar n) rest

/-- Close a finished function: pop the function context, leave its scope,
and package the Function with the collected upvalue descriptors (the
`functions.pop()` / `leave_scope()` tail of compile_function). -/
def finishFunction (s : GenState) : GenState × Option Function :=
  match s.enclosing with
  | prev :: rest =>
    let s1 : GenState := { s with current := prev, enclosing := rest, scopes := s.scopes.tail }
    (s1, some ⟨s.current.name, s.current.arity, s.current.chunk, s1.scopeUpvalues⟩)
  | [] => (s, none)

mutual

/-- BytecodeFrom<Expr>::generate (crates/bytecode/src/expr/mod.rs),
translated arm by arm. `Array`, `Index` and `Closure` are stubbed empty
arms in the source. -/
def genE (s : GenState) (e : Expr) : GenResult :=
  match e with
  | .atom v _ => genAtom s v
  | .binary lhs op rhs _ =>
    match genE s lhs with
    | (s1, false) => (s1, false)
    | (s1, true) =>
      match genE s1 rhs with
      | (s2, false) => (s2, false)
      | (s2, true) => (s2.writeOpcode (binOpcode op), true)
  | .unary op rhs _ =>
    match genE s rhs with
    | (s1, false) => (s1, false)
    | (s1, true) => (s1.writeOpcode (unOpcode op), true)
  | .ifE condition body elseExpr _ =>
    match genE s condition with
    | (s1, false) => (s1, false)
    | (s1, true) =>
      let (s2, jifPatch) := s1.emitPatch (.Jif 0)
      match genE s2 body with
      | (s3, false) => (s3, false)
      | (s3, true) =>
        let (s4, jpPatch) := s3.emitPatch (.Jp 0)
        let s5 := s4.patch jifPatch
        match genOptOrSkip s5 elseExpr with
        | (s6, false) => (s6, false)
        | (s6, true) => (s6.patch jpPatch, true)
  | .whileE condition body _ =>
    let s0 := s.enterScope .block
    let start := s0.currIndex
    match genE s0 condition with
    | (s1, false) => (s1, false)
    | (s1, true) =>
      let (s2, jifPatch) := s1.emitPatch (.Jif 0)
      match genE s2 body with
      | (s3, false) => (s3, false)
      | (s3, true) =>
        let endIndex := s3.currIndex
        let s4 := s3.writeOpcode (.Jp (-((endIndex : Int) - (start : Int))))
        let s5 := s4.patch jifPatch
        ((s5.writeOpcode .Null).leaveScope, true)
  | .block stmts returnExpr _ =>
    match genSs s stmts with
    | (s1, false) => (s1, false)
    | (s1, true) =>
      match genOptOrNull s1 returnExpr with
      | (s2, false) => (s2, false)
      | (s2, true) => (s2.writeOpcode (.Block s2.declared), true)
  | .breakE returnExpr _ =>
    match genOptOrNull s returnExpr with
    | (s1, false) => (s1, false)
    | (s1, true) => ((s1.emitPatch (.Break 0)).1, true)
  | .continueE _ =>
    let endingIndex := s.currIndex
    let startingIndex := s.currentScope.startingIndex
    (s.writeOpcode (.Jp ((startingIndex : Int) - (endingIndex : Int))), true)
  | .call callee args _ =>
    match genEs s args with
    | (s1, false) => (s1, false)
    | (s1, true) =>
      match genE s1 callee with
      | (s2, false) => (s2, false)
      | (s2, true) => (s2.writeOpcode .Call, true)
  | .returnE value _ =>
    match genOptOrNull s value with
    | (s1, false) => (s1, false)
    | (s1, true) => (s1.writeOpcode .Return, true)
  | .array _ _ => (s, true)
  | .index _ _ _ => (s, true)
  | .getProperty target isMethodCall identifier _ =>
    match genE s target with
    | (s1, false) => (s1, false)
    | (s1, true) =>
      ((s1.writeConstant (.string identifier)).writeOpcode (.GetProperty isMethodCall), true)
  | .setProperty target value identifier _ =>
    match genE s target with
    | (s1, false) => (s1, false)
    | (s1, true) =>
      match genE (s1.writeConstant (.string identifier)) value with
      | (s2, false) => (s2, false)
      | (s2, true) => (s2.writeOpcode (.SetProperty 1), true)
  | .objectLiteral properties _ =>
    match genProps s properties with
    | (s1, false) => (s1, false)
    | (s1, true) => (s1.writeOpcode (.CreateObject properties.length), true)
  | .assignment target value _ =>
    match genE s target with
    | (s1, false) => (s1, false)
    | (s1, true) =>
      match genE s1 value with
      | (s2, false) => (s2, false)
      | (s2, true) => (s2.writeOpcode .Asg, true)
  | .closure _ _ _ => (s, true)
termination_by (sizeOf e, 0)

/-- Generate an optional expression, emitting `Null` when absent (the
`match … { Some(e) => generate(e)?, None => write_opcode(Null) }`
pattern). -/
def genOptOrNull (s : GenState) (o : Option Expr) : GenResult :=
  match o with
  | some e => genE s e
  | none => (s.writeOpcode .Null, true)
termination_by (sizeOf o, 0)

/-- Generate an optional expression, emitting nothing when absent (the
if-expression's else branch). -/
def genOptOrSkip (s : GenState) (o : Option Expr) : GenResult :=
  match o with
  | some e => genE s e
  | none => (s, true)
termination_by (sizeOf o, 0)

/-- BytecodeFrom<Vec<Expr>>::generate: each expression in order. -/
def genEs (s : GenState) (es : List Expr) : GenResult :=
  match es with
  | [] => (s, true)
  | e :: rest =>
    match genE s e with
    | (s1, false) => (s1, false)
    | (s1, true) => genEs s1 rest
termination_by (sizeOf es, 0)

/-- Object literal properties: each value followed by its key constant. -/
def genProps (s : GenState) (ps : List (String × Expr)) : GenResult :=
  match ps with
  | [] => (s, true)
  | (key, value) :: rest =>
    match genE s value with
    | (s1, false) => (s1, false)
    | (s1, true) => genProps (s1.writeConstant (.string key)) rest
termination_by (sizeOf ps, 0)

/-- BytecodeGenerator::compile_function (crates/bytecode/src/stmt/mod.rs):
open a function context, declare parameters then the predefined variables,
compile the body — a constructor with a block body ends with the Local(0)
address, `Get` and `Return`; a non-constructor block body ends with its
tail expression (or `Null`) and `Return`; a non-block body is generated
directly and only non-constructors get a trailing `Return` — then pop the
finished function and leave its scope. -/
def compileFunction (s : GenState) (name : String) (params : List String) (body : Expr)
    (predefined : List String) : GenState × Option Function :=
  let s1 := declareVars (declareVars (s.newFunction name params.length) params) predefined
  let isConstructor := !predefined.isEmpty && name = CONSTRUCTOR_NAME
  match body with
  | .block stmts returnExpr _ =>
    match genSs s1 stmts with
    | (s2, false) => (s2, none)
    | (s2, true) =>
      if isConstructor then
        let s3 := ((s2.writeConstant (.memoryAddress (.local 0))).writeOpcode .Get).writeOpcode .Return
        finishFunction s3
      else
        match genOptOrNull s2 returnExpr with
        | (s3, false) => (s3, none)
        | (s3, true) => finishFunction (s3.writeOpcode .Return)
  | other =>
    match genE s1 other with
    | (s2, false) => (s2, none)
    | (s2, true) =>
      if isConstructor then finishFunction s2
      else finishFunction (s2.writeOpcode .Return)
termination_by (sizeOf body, 1)

/-- BytecodeFrom<Stmt>::generate (crates/bytecode/src/stmt/mod.rs). A
function declaration compiles the function, declares it as a global, then
emits its GlobalPointer constant, one MemoryAddress constant per upvalue
descriptor, and `CreateClosure` with the descriptor count. -/
def genS (s : GenState) (st : Stmt) : GenResult :=
  match st with
  | .expression e _ => genE s e
  | .variableDeclaration name e _ =>
    match genE s e with
    | (s1, false) => (s1, false)
    | (s1, true) => (s1.declareVar name, true)
  | .functionDeclaration name params body _ =>
    match compileFunction s name params body [name] with
    | (s1, none) => (s1, false)
    | (s1, some fn) =>
      let (s2, fnPtr) := s1.declareGlobal fn
      let upvals := s2.scopeUpvalues
      let s3 := s2.writeConstant (.globalPointer fnPtr)
      let s4 := writeConstants s3 (upvals.map upvalueAddressConstant)
      (s4.writeOpcode (.CreateClosure upvals.length), true)
termination_by (sizeOf st, 0)

/-- Statements of a block, in order. -/
def genSs (s : GenState) (ss : List Stmt) : GenResult :=
  match ss with
  | [] => (s, true)
  | st :: rest =>
    match genS s st with
    | (s1, false) => (s1, false)
    | (s1, true) => genSs s1 rest
termination_by (sizeOf ss, 0)

end

/-- Modelled from the spec: `BytecodeGenerator::new` is not in src/; the
generator starts with a root function context owning the root chunk and one
open scope (the in-src block-generation test shows a scope is open from the
start). -/
def initialGenState : GenState :=
  ⟨⟨"main", 0, ⟨[], []⟩⟩, [], [⟨.block, 0, []⟩], [], []⟩

/-- The shape of the analyzer's scope stack: which scope kinds are open, in
order. Loop and function context checks only consult this shape. -/
def Analyzer.scopeShape (a : Analyzer) : List ScopeType :=
  a.scopes.map Scope.scopeType

/-- The opcode stream of the currently emitting chunk. -/
def GenState.ops (s : GenState) : List Opcode :=
  s.current.chunk.opcodes

/-- The constant pool of the currently emitting chunk. -/
def GenState.consts (s : GenState) : List Constant :=
  s.current.chunk.constants

/-- One generator state extends another when the enclosing function stack
is unchanged and the currently emitting chunk has only been appended to
(generation emits code by appending; patches only rewrite opcodes emitted
after the starting point). -/
def Extends (s t : GenState) : Prop :=
  t.enclosing = s.enclosing ∧
  (∃ d, t.ops = s.ops ++ d) ∧
  ∃ dk, t.consts = s.consts ++ dk

/-- The opcodes an expression's generation appends to the chunk when run
from a given state. -/
def emittedE (s : GenState) (e : Expr) : List Opcode :=
  (genE s e).1.ops.drop s.ops.length

/-- The opcodes an expression list's generation appends to the chunk when
run from a given state. -/
def emittedEs (s : GenState) (es : List Expr) : List Opcode :=
  (genEs s es).1.ops.drop s.ops.length

/-- The generator state from which an if-expression's then-branch is
generated: after the condition and the `Jif` placeholder. -/
def ifThenState (s : GenState) (c : Expr) : GenState :=
  (genE s c).1.writeOpcode (.Jif 0)

/-- The generator state from which an if-expression's else-branch is
generated: after the then-branch, the `Jp` placeholder, and the patch of
the `Jif` placeholder. -/
def ifElseState (s : GenState) (c b : Expr) : GenState :=
  ((genE (ifThenState s c) b).1.writeOpcode (.Jp 0)).patch ⟨(genE s c).1.currIndex⟩

/-- The generator state from which a while-expression's body is generated:
after the scope entry, the condition, and the `Jif` placeholder. -/
def whileBodyState (s : GenState) (c : Expr) : GenState :=
  (genE (s.enterScope .block) c).1.writeOpcode (.Jif 0)



/-! ## Analyzer lemmas -/

theorem declareVar_shape (a : Analyzer) (x : String) (b : Bool) :
    (a.declareVar x b).scopeShape = a.scopeShape := by
  cases h : a.scopes <;> simp [Analyzer.declareVar, Analyzer.scopeShape, h]

theorem declareVar_scopes_ne_nil (a : Analyzer) (x : String) (b : Bool)
    (h : a.scopes ≠ []) : (a.declareVar x b).scopes ≠ [] := by
  cases hs : a.scopes with
  | nil => exact absurd hs h
  | cons s rest => simp [Analyzer.declareVar, hs]

theorem findVar_declareVar_self (a : Analyzer) (x : String) (b : Bool)
    (h : a.scopes ≠ []) : (a.declareVar x b).findVar x = some b := by
  cases hs : a.scopes with
  | nil => exact absurd hs h
  | cons s rest =>
    simp [Analyzer.declareVar, hs, Analyzer.findVar, Analyzer.findVar.go,
      Analyzer.findVar.lookupVar]

mutual

theorem visitExpr_shape (a : Analyzer) (e : Expr) (a' : Analyzer)
    (h : visitExpr a e = (a', none)) : a'.scopeShape = a.scopeShape := by
  cases e with
  | atom v sp =>
    cases v with
    | identifier name =>
      simp only [visitExpr] at h
      split at h <;> simp_all
    | boolean b => simp [visitExpr] at h; simp [h]
    | number n => simp [visitExpr] at h; simp [h]
    | text t => simp [visitExpr] at h; simp [h]
  | binary lhs op rhs sp =>
    simp only [visitExpr] at h
    split at h
    · simp at h
    · rename_i a1 heq
      exact (visitExpr_shape a1 rhs a' h).trans (visitExpr_shape a lhs a1 heq)
  | unary op rhs sp =>
    simp only [visitExpr] at h
    exact visitExpr_shape a rhs a' h
  | block stmts returnExpr sp =>
    simp only [visitExpr] at h
    split at h
    · simp at h
    · rename_i a1 heq
      exact (visitOpt_shape a1 returnExpr a' h).trans (visitStmts_shape a stmts a1 heq)
  | whileE condition body sp =>
    simp only [visitExpr] at h
    split at h
    · simp at h
    · rename_i a1 heq
      split at h
      · simp at h
      · rename_i a2 heq2
        have e2 := visitExpr_shape (a1.enterScope .loop) body a2 heq2
        have e1 := visitExpr_shape a condition a1 heq
        simp only [Prod.mk.injEq] at h
        obtain ⟨rfl, -⟩ := h
        simp only [Analyzer.enterScope, Analyzer.scopeShape, Analyzer.leaveScope] at e2 ⊢
        cases hs : a2.scopes with
        | nil => simp [hs] at e2
        | cons s2 rest2 =>
          simp [hs] at e2 ⊢
          rw [e2.2]
          simpa [Analyzer.scopeShape] using e1
  | continueE sp =>
    simp only [visitExpr] at h
    split at h <;> simp_all
  | breakE returnExpr sp =>
    simp only [visitExpr] at h
    split at h
    · exact visitOpt_shape a returnExpr a' h
    · simp at h
  | returnE value sp =>
    simp only [visitExpr] at h
    split at h
    · exact visitOpt_shape a value a' h
    · simp at h
  | call callee args sp =>
    simp only [visitExpr] at h
    split at h
    · simp at h
    · rename_i a1 heq
      exact (visitExprs_shape a1 args a' h).trans (visitExpr_shape a callee a1 heq)
  | ifE condition body elseExpr sp =>
    simp only [visitExpr] at h
    split at h
    · simp at h
    · rename_i a1 heq
      split at h
      · simp at h
      · rename_i a2 heq2
        exact ((visitOpt_shape a2 elseExpr a' h).trans
          (visitExpr_shape a1 body a2 heq2)).trans (visitExpr_shape a condition a1 heq)
  | array values sp =>
    simp only [visitExpr] at h
    exact visitExprs_shape a values a' h
  | index target position sp =>
    simp only [visitExpr] at h
    split at h
    · simp at h
    · rename_i a1 heq
      exact (visitExpr_shape a1 position a' h).trans (visitExpr_shape a target a1 heq)
  | getProperty target isMethodCall identifier sp =>
    simp only [visitExpr] at h
    exact visitExpr_shape a target a' h
  | setProperty target value identifier sp =>
    simp only [visitExpr] at h
    split at h
    · simp at h
    · rename_i a1 heq
      exact (visitExpr_shape a1 value a' h).trans (visitExpr_shape a target a1 heq)
  | objectLiteral properties sp =>
    simp only [visitExpr] at h
    exact visitProps_shape a properties a' h
  | assignment target value sp =>
    simp only [visitExpr] at h
    split at h
    · simp at h
    · rename_i a1 heq
      exact (visitExpr_shape a1 value a' h).trans (visitExpr_shape a target a1 heq)
  | closure params body sp =>
    simp only [visitExpr] at h
    split at h
    · simp at h
    · rename_i a1 heq
      have e1 := visitExpr_shape (a.enterScope .function) body a1 heq
      simp only [Prod.mk.injEq] at h
      obtain ⟨rfl, -⟩ := h
      simp only [Analyzer.enterScope, Analyzer.scopeShape, Analyzer.leaveScope] at e1 ⊢
      cases hs : a1.scopes with
      | nil => simp [hs] at e1
      | cons s1 rest1 =>
        simp [hs] at e1 ⊢
        exact e1.2
termination_by (sizeOf e, 0)

theorem visitOpt_shape (a : Analyzer) (o : Option Expr) (a' : Analyzer)
    (h : visitOpt a o = (a', none)) : a'.scopeShape = a.scopeShape := by
  cases o with
  | none => simp [visitOpt] at h; simp [h]
  | some e =>
    simp only [visitOpt] at h
    exact visitExpr_shape a e a' h
termination_by (sizeOf o, 0)

theorem visitExprs_shape (a : Analyzer) (es : List Expr) (a' : Analyzer)
    (h : visitExprs a es = (a', none)) : a'.scopeShape = a.scopeShape := by
  cases es with
  | nil => simp [visitExprs] at h; simp [h]
  | cons e rest =>
    simp only [visitExprs] at h
    split at h
    · simp at h
    · rename_i a1 heq
      exact (visitExprs_shape a1 rest a' h).trans (visitExpr_shape a e a1 heq)
termination_by (sizeOf es, 0)

theorem visitProps_shape (a : Analyzer) (ps : List (String × Expr)) (a' : Analyzer)
    (h : visitProps a ps = (a', none)) : a'.scopeShape = a.scopeShape :=
  match ps, h with
  | [], h => by simp [visitProps] at h; simp [h]
  | (n, v) :: rest, h => by
    simp only [visitProps] at h
    split at h
    · simp at h
    · rename_i a1 heq
      exact (visitProps_shape a1 rest a' h).trans (visitExpr_shape a v a1 heq)
termination_by (sizeOf ps, 0)

theorem visitStmt_shape (a : Analyzer) (st : Stmt) (a' : Analyzer)
    (h : visitStmt a st = (a', none)) : a'.scopeShape = a.scopeShape := by
  cases st with
  | variableDeclaration name expr sp =>
    simp only [visitStmt] at h
    split at h
    · simp at h
    · rename_i a1 heq
      simp only [Prod.mk.injEq] at h
      obtain ⟨rfl, -⟩ := h
      rw [declareVar_shape]
      exact (visitExpr_shape (a.declareVar name false) expr a1 heq).trans
        (declareVar_shape a name false)
  | functionDeclaration name params body sp =>
    simp only [visitStmt] at h
    split at h
    · simp at h
    · rename_i a1 heq
      have e1 := visitExpr_shape ((a.declareVar name true).enterScope .function) body a1 heq
      simp only [Prod.mk.injEq] at h
      obtain ⟨rfl, -⟩ := h
      simp only [Analyzer.enterScope, Analyzer.scopeShape, Analyzer.leaveScope] at e1 ⊢
      cases hs : a1.scopes with
      | nil => simp [hs] at e1
      | cons s1 rest1 =>
        simp [hs] at e1 ⊢
        rw [e1.2]
        have := declareVar_shape a name true
        simpa [Analyzer.scopeShape] using this
  | expression expr sp =>
    simp only [visitStmt] at h
    exact visitExpr_shape a expr a' h
termination_by (sizeOf st, 0)

theorem visitStmts_shape (a : Analyzer) (ss : List Stmt) (a' : Analyzer)
    (h : visitStmts a ss = (a', none)) : a'.scopeShape = a.scopeShape := by
  cases ss with
  | nil => simp [visitStmts] at h; simp [h]
  | cons st rest =>
    simp only [visitStmts] at h
    split at h
    · simp at h
    · rename_i a1 heq
      exact (visitStmts_shape a1 rest a' h).trans (visitStmt_shape a st a1 heq)
termination_by (sizeOf ss, 0)

end


/-! ## Claim theorems: analyzer (C2, C4, C6, C10) -/

/-- C2, counterexample: the statement `x + y;` contains two static errors
(`x` and `y` are both undefined, as the second conjunct shows for `y`
alone), yet the analyzer returns only the first one — the error list for
the single statement has length one and does not contain the `y` error, so
analysis does not continue past an erroneous sub-expression. -/
theorem c2_counterexample :
    analyze [] [.expression (.binary (.atom (.identifier "x") ⟨0, 1⟩) .plus
        (.atom (.identifier "y") ⟨4, 5⟩) ⟨0, 5⟩) ⟨0, 6⟩]
      = [⟨⟨0, 1⟩, ⟨0, 1⟩, .notDefined⟩] ∧
    analyze [] [.expression (.atom (.identifier "y") ⟨4, 5⟩) ⟨4, 6⟩]
      = [⟨⟨4, 5⟩, ⟨4, 5⟩, .notDefined⟩] ∧
    ¬ (⟨⟨4, 5⟩, ⟨4, 5⟩, .notDefined⟩ : ParseErr) ∈
      analyze [] [.expression (.binary (.atom (.identifier "x") ⟨0, 1⟩) .plus
        (.atom (.identifier "y") ⟨4, 5⟩) ⟨0, 5⟩) ⟨0, 6⟩] := by
  refine ⟨?_, ?_, ?_⟩ <;>
    simp [analyze, analyzeStmts, visitStmt, visitExpr, Analyzer.new, Analyzer.findVar,
      Analyzer.findVar.go, Analyzer.findVar.lookupVar, mkErr]

/-- C2, amended: the analyzer reports at most one error per top-level
statement — the first it meets — and keeps analyzing the following
statements, so the error list is bounded by the statement count (first
conjunct) while two single-error statements still yield two errors (second
conjunct). -/
theorem c2_theorem :
    (∀ (a : Analyzer) (ss : List Stmt), (analyzeStmts a ss).2.length ≤ ss.length) ∧
    analyze [] [.expression (.atom (.identifier "x") ⟨0, 1⟩) ⟨0, 2⟩,
                .expression (.atom (.identifier "y") ⟨3, 4⟩) ⟨3, 5⟩]
      = [⟨⟨0, 1⟩, ⟨0, 1⟩, .notDefined⟩, ⟨⟨3, 4⟩, ⟨3, 4⟩, .notDefined⟩] := by
  constructor
  · intro a ss
    induction ss generalizing a with
    | nil => simp [analyzeStmts]
    | cons st rest ih =>
      simp only [analyzeStmts]
      rcases h1 : visitStmt a st with ⟨a1, r1⟩
      cases r1 with
      | none => simpa using Nat.le_succ_of_le (ih a1)
      | some er => simpa using ih a1
  · simp [analyze, analyzeStmts, visitStmt, visitExpr, Analyzer.new, Analyzer.findVar,
      Analyzer.findVar.go, Analyzer.findVar.lookupVar, mkErr]

/-- C4, counterexample: a `return` lexically inside a function body but
nested inside a loop is reported as `ReturnUsedOutsideFunction`, although a
Function scope is on the stack below the Loop scope — the analyzer only
checks the innermost scope. -/
theorem c4_counterexample :
    analyze [] [.functionDeclaration "f" []
        (.whileE (.atom (.boolean true) ⟨9, 13⟩) (.returnE none ⟨16, 23⟩) ⟨3, 25⟩) ⟨0, 27⟩]
      = [⟨⟨16, 23⟩, ⟨16, 23⟩, .returnUsedOutsideFunction⟩] := by
  simp [analyze, analyzeStmts, visitStmt, visitExpr, Analyzer.new, Analyzer.enterScope,
    Analyzer.leaveScope, Analyzer.currentScope, Analyzer.declareVar, Scope.new, mkErr]

/-- C4, amended: the analyzer reports `ReturnUsedOutsideFunction` for a
`return` expression exactly when the innermost scope is not a Function
scope (regardless of Function scopes further down the stack); when the
innermost scope is a Function scope the node itself is accepted and only
its value is analyzed. -/
theorem c4_theorem (a : Analyzer) (value : Option Expr) (sp : Span) :
    (a.currentScope.scopeType ≠ .function →
      visitExpr a (.returnE value sp) = (a, some (mkErr sp .returnUsedOutsideFunction))) ∧
    (a.currentScope.scopeType = .function →
      visitExpr a (.returnE value sp) = visitOpt a value) := by
  constructor <;> intro h <;> simp [visitExpr, h]

/-- C4, witness: at the top level (global scope) a bare `return;` is
reported, by the amended theorem applied at a concrete state. -/
theorem c4_witness :
    visitExpr (Analyzer.new []) (.returnE none ⟨0, 7⟩)
      = (Analyzer.new [], some (mkErr ⟨0, 7⟩ .returnUsedOutsideFunction)) :=
  (c4_theorem (Analyzer.new []) none ⟨0, 7⟩).1 (by simp [Analyzer.new, Analyzer.currentScope])

/-- C6: a variable declaration registers the name as uninitialized before
its initializer is visited — so the spec's own example `let x = x + 1;`
reports `UsedBeforeInitialization` from any starting state (first
conjunct) — and flips it to initialized afterwards, so when the
initializer analyzes cleanly the statement succeeds, the name reads as
initialized, and an identifier read of it in a later statement of the same
scope is accepted (second conjunct). -/
theorem c6_theorem :
    (∀ (a : Analyzer) (x : String) (sp1 sp2 sp3 sp4 : Span), a.scopes ≠ [] →
      visitStmt a (.variableDeclaration x
          (.binary (.atom (.identifier x) sp1) .plus (.atom (.number 1) sp2) sp3) sp4)
        = (a.declareVar x false, some (mkErr sp1 .usedBeforeInitialization))) ∧
    (∀ (a a' : Analyzer) (x : String) (e : Expr) (sp : Span), a.scopes ≠ [] →
      visitExpr (a.declareVar x false) e = (a', none) →
      visitStmt a (.variableDeclaration x e sp) = (a'.declareVar x true, none) ∧
      (a'.declareVar x true).findVar x = some true ∧
      ∀ sp2, visitExpr (a'.declareVar x true) (.atom (.identifier x) sp2)
        = (a'.declareVar x true, none)) := by
  constructor
  · intro a x sp1 sp2 sp3 sp4 h
    have hf := findVar_declareVar_self a x false h
    simp [visitStmt, visitExpr, hf]
  · intro a a' x e sp h hvis
    have hne : a'.scopes ≠ [] := by
      have hsh := visitExpr_shape (a.declareVar x false) e a' hvis
      rw [declareVar_shape] at hsh
      intro hnil
      rw [Analyzer.scopeShape, hnil] at hsh
      cases hs : a.scopes with
      | nil => exact h hs
      | cons s rest => rw [Analyzer.scopeShape, hs] at hsh; simp at hsh
    have hf := findVar_declareVar_self a' x true hne
    refine ⟨?_, hf, ?_⟩
    · simp [visitStmt, hvis]
    · intro sp2
      simp [visitExpr, hf]

/-- C6, witness: the amended protocol at a concrete input — `let x = x;`
style self-reference errors, and `let x = 1;` followed by a read of `x`
succeeds. -/
theorem c6_witness :
    visitStmt (Analyzer.new []) (.variableDeclaration "x"
        (.binary (.atom (.identifier "x") ⟨8, 9⟩) .plus (.atom (.number 1) ⟨12, 13⟩) ⟨8, 13⟩) ⟨0, 14⟩)
      = ((Analyzer.new []).declareVar "x" false, some (mkErr ⟨8, 9⟩ .usedBeforeInitialization)) ∧
    visitStmt (Analyzer.new []) (.variableDeclaration "x" (.atom (.number 1) ⟨8, 9⟩) ⟨0, 10⟩)
      = ((((Analyzer.new []).declareVar "x" false)).declareVar "x" true, none) ∧
    ((((Analyzer.new []).declareVar "x" false)).declareVar "x" true).findVar "x" = some true := by
  have h1 := c6_theorem.1 (Analyzer.new []) "x" ⟨8, 9⟩ ⟨12, 13⟩ ⟨8, 13⟩ ⟨0, 14⟩
    (by simp [Analyzer.new])
  have h2 := c6_theorem.2 (Analyzer.new []) ((Analyzer.new []).declareVar "x" false) "x"
    (.atom (.number 1) ⟨8, 9⟩) ⟨0, 10⟩ (by simp [Analyzer.new]) (by simp [visitExpr])
  exact ⟨h1, h2.1, h2.2.1⟩

/-- C10, counterexample: when the first top-level statement errors inside a
while body, the Loop scope pushed for that body is never popped (the scope
stack grows from one to two scopes), and the leaked Loop scope silences the
`UsedOutsideLoop` error a top-level `continue;` in the next statement
would otherwise get (last conjunct shows the same `continue;` alone is an
error). -/
theorem c10_counterexample :
    analyze [] [.expression (.whileE (.atom (.boolean true) ⟨7, 11⟩)
        (.returnE none ⟨14, 21⟩) ⟨0, 23⟩) ⟨0, 24⟩,
      .expression (.continueE ⟨25, 33⟩) ⟨25, 34⟩]
      = [⟨⟨14, 21⟩, ⟨14, 21⟩, .returnUsedOutsideFunction⟩] ∧
    (visitStmt (Analyzer.new []) (.expression (.whileE (.atom (.boolean true) ⟨7, 11⟩)
        (.returnE none ⟨14, 21⟩) ⟨0, 23⟩) ⟨0, 24⟩)).1.scopes.length = 2 ∧
    (Analyzer.new []).scopes.length = 1 ∧
    analyze [] [.expression (.continueE ⟨25, 33⟩) ⟨25, 34⟩]
      = [⟨⟨25, 33⟩, ⟨25, 33⟩, .usedOutsideLoop⟩] := by
  refine ⟨?_, ?_, ?_, ?_⟩ <;>
    simp [analyze, analyzeStmts, visitStmt, visitExpr, Analyzer.new, Analyzer.enterScope,
      Analyzer.leaveScope, Analyzer.currentScope, Scope.new, mkErr]

/-- C10, amended: when a top-level statement is analyzed without error, the
scope stack's shape (which scope kinds are open, in order) is exactly what
it was before the statement; when the statement errors, scopes entered for
a while body, closure or function body may be left on the stack. -/
theorem c10_theorem (a a' : Analyzer) (st : Stmt) (h : visitStmt a st = (a', none)) :
    a'.scopeShape = a.scopeShape :=
  visitStmt_shape a st a' h

/-- C10, witness: a successfully analyzed declaration changes the scope
contents but leaves the scope-stack shape intact. -/
theorem c10_witness :
    ((((Analyzer.new []).declareVar "x" false)).declareVar "x" true).scopeShape
      = (Analyzer.new []).scopeShape :=
  c10_theorem (Analyzer.new []) _ (.variableDeclaration "x" (.atom (.number 1) ⟨4, 5⟩) ⟨0, 6⟩)
    (by simp [visitStmt, visitExpr])


/-! ## Claim theorems: VM Jif (C1) -/

/-- C1, counterexample: executing `Jif` on the stack of the in-src VM test
(127 at the bottom, the condition `false` above it, the jump distance 3 on
top) removes two values, not one — the result stack holds only 127 — and
the distance comes from the operand stack, not from an opcode payload. -/
theorem c1_counterexample :
    opJif ⟨[.number 3, .bool false, .number 127], 0⟩
      = .ok ⟨[.number 127], 3⟩ ∧
    ¬ (([RuntimeValue.number 127] : List RuntimeValue).length
        = ([RuntimeValue.number 3, .bool false, .number 127] : List RuntimeValue).length - 1) := by
  constructor
  · rfl
  · decide

/-- C1, amended: `op_jif` pops exactly two values — the jump distance on
top of the stack (which must be a number, else every successful run is
impossible) and the condition below it. When the condition equals `false`
the instruction pointer moves by the popped distance; when it does not,
the pointer is left where it was. -/
theorem c1_theorem (d : Int) (c : RuntimeValue) (rest : List RuntimeValue) (ip : Nat) :
    (∀ s', opJif ⟨.number d :: c :: rest, ip⟩ = .ok s' → s'.stack = rest) ∧
    (runtimeValueEq c (.bool false) = false →
      opJif ⟨.number d :: c :: rest, ip⟩ = .ok ⟨rest, ip⟩) ∧
    (runtimeValueEq c (.bool false) = true → 0 ≤ (ip : Int) + d →
      opJif ⟨.number d :: c :: rest, ip⟩ = .ok ⟨rest, ((ip : Int) + d).toNat⟩) ∧
    (∀ (v : RuntimeValue) s', opJif ⟨v :: c :: rest, ip⟩ = .ok s' → ∃ n, v = .number n) := by
  refine ⟨?_, ?_, ?_, ?_⟩
  · intro s' h
    simp only [opJif, popTwoOperands, expectAddress] at h
    split at h
    · simp only [movePointer] at h
      split at h
      · simp at h
      · simp only [Except.ok.injEq] at h
        rw [← h]
    · simp only [Except.ok.injEq] at h
      rw [← h]
  · intro h
    simp [opJif, popTwoOperands, expectAddress, h]
  · intro h h2
    simp [opJif, popTwoOperands, expectAddress, movePointer, h]
    omega
  · intro v s' h
    simp only [opJif, popTwoOperands] at h
    cases v with
    | number n => exact ⟨n, rfl⟩
    | _ => simp [expectAddress] at h

/-- C1, witness: the amended theorem at the in-src test's operands — a
false condition with distance 3 moves the pointer from 0 to 3 and leaves
only the bottom value. -/
theorem c1_witness :
    opJif ⟨[.number 3, .bool false, .number 127], 0⟩ = .ok ⟨[.number 127], 3⟩ :=
  (c1_theorem 3 (.bool false) [.number 127] 0).2.2.1 (by decide) (by decide)


/-! ## Generator lemmas: state-operation algebra -/

theorem set_append_of_le {α : Type} (A B : List α) (i : Nat) (y : α) (h : A.length ≤ i) :
    (A ++ B).set i y = A ++ B.set (i - A.length) y := by
  induction A generalizing i with
  | nil => simp
  | cons a rest ih =>
    cases i with
    | zero => simp at h
    | succ n =>
      simp only [List.cons_append, List.set_cons_succ, List.length_cons]
      rw [ih n (by simpa using h)]
      have he : n + 1 - (rest.length + 1) = n - rest.length := by omega
      rw [he]

theorem writeOpcode_enclosing (s : GenState) (op : Opcode) :
    (s.writeOpcode op).enclosing = s.enclosing := rfl

theorem writeOpcode_ops (s : GenState) (op : Opcode) :
    (s.writeOpcode op).ops = s.ops ++ [op] := rfl

theorem writeOpcode_consts (s : GenState) (op : Opcode) :
    (s.writeOpcode op).consts = s.consts := rfl

theorem writeConstant_enclosing (s : GenState) (k : Constant) :
    (s.writeConstant k).enclosing = s.enclosing := rfl

theorem writeConstant_ops (s : GenState) (k : Constant) :
    (s.writeConstant k).ops = s.ops ++ [.Constant s.consts.length] := rfl

theorem writeConstant_consts (s : GenState) (k : Constant) :
    (s.writeConstant k).consts = s.consts ++ [k] := rfl

theorem enterScope_current (s : GenState) (t : GenScopeType) :
    (s.enterScope t).current = s.current := rfl

theorem enterScope_enclosing (s : GenState) (t : GenScopeType) :
    (s.enterScope t).enclosing = s.enclosing := rfl

theorem leaveScope_current (s : GenState) : s.leaveScope.current = s.current := rfl

theorem leaveScope_enclosing (s : GenState) : s.leaveScope.enclosing = s.enclosing := rfl

theorem declareVar_current (s : GenState) (n : String) :
    (s.declareVar n).current = s.current := by
  cases hs : s.scopes <;> simp [GenState.declareVar, hs]

theorem declareVar_enclosing (s : GenState) (n : String) :
    (s.declareVar n).enclosing = s.enclosing := by
  cases hs : s.scopes <;> simp [GenState.declareVar, hs]

theorem declareVars_current (s : GenState) (ns : List String) :
    (declareVars s ns).current = s.current := by
  induction ns generalizing s with
  | nil => rfl
  | cons n rest ih => rw [declareVars, ih, declareVar_current]

theorem declareVars_enclosing (s : GenState) (ns : List String) :
    (declareVars s ns).enclosing = s.enclosing := by
  induction ns generalizing s with
  | nil => rfl
  | cons n rest ih => rw [declareVars, ih, declareVar_enclosing]

theorem patch_enclosing (s : GenState) (p : Patch) : (s.patch p).enclosing = s.enclosing := by
  simp only [GenState.patch]
  split <;> rfl

theorem patch_consts (s : GenState) (p : Patch) : (s.patch p).consts = s.consts := by
  simp only [GenState.patch]
  split <;> rfl

theorem newFunction_current (s : GenState) (n : String) (a : Nat) :
    (s.newFunction n a).current = ⟨n, a, ⟨[], []⟩⟩ := rfl

theorem newFunction_enclosing (s : GenState) (n : String) (a : Nat) :
    (s.newFunction n a).enclosing = s.current :: s.enclosing := rfl

theorem declareGlobal_current (s : GenState) (f : Function) :
    (s.declareGlobal f).1.current = s.current := by
  simp only [GenState.declareGlobal]
  exact declareVar_current _ _

theorem declareGlobal_enclosing (s : GenState) (f : Function) :
    (s.declareGlobal f).1.enclosing = s.enclosing := by
  simp only [GenState.declareGlobal]
  exact declareVar_enclosing _ _

theorem declareGlobal_ops (s : GenState) (f : Function) :
    (s.declareGlobal f).1.ops = s.ops := by
  simp only [GenState.declareGlobal, GenState.ops]
  rw [show ∀ t : GenState, (t.declareVar f.name).current = t.current from fun t => declareVar_current t _]

theorem declareGlobal_consts (s : GenState) (f : Function) :
    (s.declareGlobal f).1.consts = s.consts := by
  simp only [GenState.declareGlobal, GenState.consts]
  rw [show ∀ t : GenState, (t.declareVar f.name).current = t.current from fun t => declareVar_current t _]

theorem writeConstants_spec (s : GenState) (ks : List Constant) :
    (writeConstants s ks).ops
        = s.ops ++ (List.range ks.length).map (fun i => Opcode.Constant (s.consts.length + i)) ∧
    (writeConstants s ks).consts = s.consts ++ ks ∧
    (writeConstants s ks).enclosing = s.enclosing := by
  induction ks generalizing s with
  | nil => simp [writeConstants]
  | cons k rest ih =>
    rw [writeConstants]
    obtain ⟨h1, h2, h3⟩ := ih (s.writeConstant k)
    refine ⟨?_, ?_, ?_⟩
    · rw [h1, writeConstant_ops, writeConstant_consts, List.append_assoc]
      congr 1
      simp only [List.length_cons]
      rw [List.range_succ_eq_map]
      simp only [List.map_cons, List.map_map, List.singleton_append, Nat.add_zero]
      congr 1
      apply List.map_congr_left
      intro i hi
      simp only [Function.comp_apply]
      congr 1
      simp only [List.length_append, List.length_singleton]
      omega
    · rw [h2, writeConstant_consts]
      simp
    · rw [h3, writeConstant_enclosing]

theorem Extends.rfl (s : GenState) : Extends s s :=
  ⟨by rfl, ⟨[], by simp⟩, ⟨[], by simp⟩⟩

theorem Extends.trans {s t u : GenState} (h1 : Extends s t) (h2 : Extends t u) : Extends s u := by
  obtain ⟨e1, ⟨d1, o1⟩, ⟨k1, c1⟩⟩ := h1
  obtain ⟨e2, ⟨d2, o2⟩, ⟨k2, c2⟩⟩ := h2
  exact ⟨e2.trans e1, ⟨d1 ++ d2, by rw [o2, o1, List.append_assoc]⟩,
    ⟨k1 ++ k2, by rw [c2, c1, List.append_assoc]⟩⟩

theorem Extends.ops_le {s t : GenState} (h : Extends s t) : s.ops.length ≤ t.ops.length := by
  obtain ⟨-, ⟨d, o⟩, -⟩ := h
  simp [o]

theorem extends_writeOpcode {s t : GenState} (h : Extends s t) (op : Opcode) :
    Extends s (t.writeOpcode op) := by
  obtain ⟨e1, ⟨d, o⟩, ⟨k, c⟩⟩ := h
  exact ⟨by rw [writeOpcode_enclosing, e1], ⟨d ++ [op], by rw [writeOpcode_ops, o, List.append_assoc]⟩,
    ⟨k, by rw [writeOpcode_consts, c]⟩⟩

theorem extends_writeConstant {s t : GenState} (h : Extends s t) (k : Constant) :
    Extends s (t.writeConstant k) := by
  obtain ⟨e1, ⟨d, o⟩, ⟨dk, c⟩⟩ := h
  refine ⟨by rw [writeConstant_enclosing, e1],
    ⟨d ++ [.Constant t.consts.length], by rw [writeConstant_ops, o, List.append_assoc]⟩,
    ⟨dk ++ [k], by rw [writeConstant_consts, c, List.append_assoc]⟩⟩

theorem extends_enterScope {s t : GenState} (h : Extends s t) (ty : GenScopeType) :
    Extends s (t.enterScope ty) := by
  obtain ⟨e1, o, c⟩ := h
  exact ⟨by rw [enterScope_enclosing, e1], o, c⟩

theorem extends_leaveScope {s t : GenState} (h : Extends s t) :
    Extends s t.leaveScope := by
  obtain ⟨e1, o, c⟩ := h
  exact ⟨by rw [leaveScope_enclosing, e1], o, c⟩

theorem extends_declareVar {s t : GenState} (h : Extends s t) (n : String) :
    Extends s (t.declareVar n) := by
  obtain ⟨e1, ⟨d, o⟩, c⟩ := h
  refine ⟨by rw [declareVar_enclosing, e1], ⟨d, ?_⟩, ?_⟩
  · rw [GenState.ops, declareVar_current]; exact o
  · obtain ⟨dk, c⟩ := c
    exact ⟨dk, by rw [GenState.consts, declareVar_current]; exact c⟩

theorem extends_patch {s t : GenState} (h : Extends s t) (p : Patch)
    (hp : s.ops.length ≤ p.index) : Extends s (t.patch p) := by
  obtain ⟨e1, ⟨d, o⟩, ⟨dk, c⟩⟩ := h
  refine ⟨by rw [patch_enclosing, e1], ?_, ⟨dk, by rw [patch_consts, c]⟩⟩
  simp only [GenState.patch, GenState.ops] at o hp ⊢
  split
  · rename_i op hget
    refine ⟨d.set (p.index - s.current.chunk.opcodes.length)
      (patchOpcode op ((t.current.chunk.opcodes.length : Int) - (p.index : Int) - 1)), ?_⟩
    show (t.current.chunk.opcodes).set p.index _ = _
    rw [o, set_append_of_le _ d p.index _ hp]
  · exact ⟨d, o⟩

theorem extends_writeConstants {s t : GenState} (h : Extends s t) (ks : List Constant) :
    Extends s (writeConstants t ks) := by
  induction ks generalizing t with
  | nil => exact h
  | cons k rest ih =>
    rw [writeConstants]
    exact ih (extends_writeConstant h k)


theorem extends_declareGlobal {s t : GenState} (h : Extends s t) (f : Function) :
    Extends s (t.declareGlobal f).1 := by
  obtain ⟨e1, ⟨d, o⟩, ⟨dk, c⟩⟩ := h
  refine ⟨by rw [declareGlobal_enclosing, e1], ⟨d, ?_⟩, ⟨dk, ?_⟩⟩
  · rw [declareGlobal_ops]; exact o
  · rw [declareGlobal_consts]; exact c

theorem genAtom_extends (s : GenState) (v : AtomicValue) (s' : GenState)
    (h : genAtom s v = (s', true)) : Extends s s' := by
  cases v with
  | number n =>
    simp only [genAtom, Prod.mk.injEq] at h
    obtain ⟨rfl, -⟩ := h
    exact extends_writeConstant (Extends.rfl s) _
  | text t =>
    simp only [genAtom, Prod.mk.injEq] at h
    obtain ⟨rfl, -⟩ := h
    exact extends_writeConstant (Extends.rfl s) _
  | boolean b =>
    simp only [genAtom, Prod.mk.injEq] at h
    obtain ⟨rfl, -⟩ := h
    exact extends_writeOpcode (Extends.rfl s) _
  | identifier name =>
    simp only [genAtom] at h
    split at h
    · simp only [Prod.mk.injEq] at h
      obtain ⟨rfl, -⟩ := h
      exact extends_writeConstant (Extends.rfl s) _
    · split at h
      · simp only [Prod.mk.injEq] at h
        obtain ⟨rfl, -⟩ := h
        refine extends_writeConstant ⟨rfl, ⟨[], by simp [GenState.ops]⟩, ⟨[], by simp [GenState.consts]⟩⟩ _
      · split at h
        · simp only [Prod.mk.injEq] at h
          obtain ⟨rfl, -⟩ := h
          exact extends_writeConstant (Extends.rfl s) _
        · simp at h

theorem finishFunction_frame (t : GenState) (x : FnCtx) (xs : List FnCtx) (s' : GenState)
    (fn : Function) (henc : t.enclosing = x :: xs) (h : finishFunction t = (s', some fn)) :
    s'.current = x ∧ s'.enclosing = xs := by
  simp only [finishFunction] at h
  split at h
  · rename_i prev rest heqenc
    have hx := henc.symm.trans heqenc
    simp only [List.cons.injEq] at hx
    obtain ⟨rfl, rfl⟩ := hx
    simp only [Prod.mk.injEq] at h
    obtain ⟨rfl, -⟩ := h
    exact ⟨rfl, rfl⟩
  · simp at h

mutual

theorem genE_extends (s : GenState) (e : Expr) (s' : GenState) (h : genE s e = (s', true)) :
    Extends s s' := by
  cases e with
  | atom v sp =>
    simp only [genE] at h
    exact genAtom_extends s v s' h
  | binary lhs op rhs sp =>
    simp only [genE] at h
    split at h
    · simp at h
    · rename_i s1 heq1
      split at h
      · simp at h
      · rename_i s2 heq2
        simp only [Prod.mk.injEq] at h
        obtain ⟨rfl, -⟩ := h
        exact extends_writeOpcode
          ((genE_extends s lhs s1 heq1).trans (genE_extends s1 rhs s2 heq2)) _
  | unary op rhs sp =>
    simp only [genE] at h
    split at h
    · simp at h
    · rename_i s1 heq1
      simp only [Prod.mk.injEq] at h
      obtain ⟨rfl, -⟩ := h
      exact extends_writeOpcode (genE_extends s rhs s1 heq1) _
  | ifE condition body elseExpr sp =>
    simp only [genE, GenState.emitPatch] at h
    split at h
    · simp at h
    · rename_i s1 heq1
      split at h
      · simp at h
      · rename_i s3 heq3
        split at h
        · simp at h
        · rename_i s6 heq6
          simp only [Prod.mk.injEq] at h
          obtain ⟨rfl, -⟩ := h
          have E1 := genE_extends s condition s1 heq1
          have E3 := (extends_writeOpcode E1 (.Jif 0)).trans
            (genE_extends _ body s3 heq3)
          have hidx1 : s.ops.length ≤ s1.currIndex := by
            simpa [GenState.currIndex, GenState.ops] using E1.ops_le
          have E5 := extends_patch (extends_writeOpcode E3 (.Jp 0)) ⟨s1.currIndex⟩ hidx1
          have E6 := E5.trans (genOptOrSkip_extends _ elseExpr s6 heq6)
          have hidx2 : s.ops.length ≤ s3.currIndex := by
            simpa [GenState.currIndex, GenState.ops] using E3.ops_le
          exact extends_patch E6 ⟨s3.currIndex⟩ hidx2
  | whileE condition body sp =>
    simp only [genE, GenState.emitPatch] at h
    split at h
    · simp at h
    · rename_i s1 heq1
      split at h
      · simp at h
      · rename_i s3 heq3
        simp only [Prod.mk.injEq] at h
        obtain ⟨rfl, -⟩ := h
        have E1 := (extends_enterScope (Extends.rfl s) .block).trans
          (genE_extends _ condition s1 heq1)
        have E3 := (extends_writeOpcode E1 (.Jif 0)).trans (genE_extends _ body s3 heq3)
        have hidx : s.ops.length ≤ s1.currIndex := by
          simpa [GenState.currIndex, GenState.ops] using E1.ops_le
        exact extends_leaveScope
          (extends_writeOpcode (extends_patch (extends_writeOpcode E3 _) ⟨s1.currIndex⟩ hidx) .Null)
  | block stmts returnExpr sp =>
    simp only [genE] at h
    split at h
    · simp at h
    · rename_i s1 heq1
      split at h
      · simp at h
      · rename_i s2 heq2
        simp only [Prod.mk.injEq] at h
        obtain ⟨rfl, -⟩ := h
        exact extends_writeOpcode
          ((genSs_extends s stmts s1 heq1).trans (genOptOrNull_extends s1 returnExpr s2 heq2)) _
  | breakE returnExpr sp =>
    simp only [genE, GenState.emitPatch] at h
    split at h
    · simp at h
    · rename_i s1 heq1
      simp only [Prod.mk.injEq] at h
      obtain ⟨rfl, -⟩ := h
      exact extends_writeOpcode (genOptOrNull_extends s returnExpr s1 heq1) _
  | continueE sp =>
    simp only [genE, Prod.mk.injEq] at h
    obtain ⟨rfl, -⟩ := h
    exact extends_writeOpcode (Extends.rfl s) _
  | call callee args sp =>
    simp only [genE] at h
    split at h
    · simp at h
    · rename_i s1 heq1
      split at h
      · simp at h
      · rename_i s2 heq2
        simp only [Prod.mk.injEq] at h
        obtain ⟨rfl, -⟩ := h
        exact extends_writeOpcode
          ((genEs_extends s args s1 heq1).trans (genE_extends s1 callee s2 heq2)) _
  | returnE value sp =>
    simp only [genE] at h
    split at h
    · simp at h
    · rename_i s1 heq1
      simp only [Prod.mk.injEq] at h
      obtain ⟨rfl, -⟩ := h
      exact extends_writeOpcode (genOptOrNull_extends s value s1 heq1) _
  | array values sp =>
    simp only [genE, Prod.mk.injEq] at h
    obtain ⟨rfl, -⟩ := h
    exact Extends.rfl s
  | index target position sp =>
    simp only [genE, Prod.mk.injEq] at h
    obtain ⟨rfl, -⟩ := h
    exact Extends.rfl s
  | getProperty target isMethodCall identifier sp =>
    simp only [genE] at h
    split at h
    · simp at h
    · rename_i s1 heq1
      simp only [Prod.mk.injEq] at h
      obtain ⟨rfl, -⟩ := h
      exact extends_writeOpcode (extends_writeConstant (genE_extends s target s1 heq1) _) _
  | setProperty target value identifier sp =>
    simp only [genE] at h
    split at h
    · simp at h
    · rename_i s1 heq1
      split at h
      · simp at h
      · rename_i s2 heq2
        simp only [Prod.mk.injEq] at h
        obtain ⟨rfl, -⟩ := h
        exact extends_writeOpcode
          ((extends_writeConstant (genE_extends s target s1 heq1) _).trans
            (genE_extends _ value s2 heq2)) _
  | objectLiteral properties sp =>
    simp only [genE] at h
    split at h
    · simp at h
    · rename_i s1 heq1
      simp only [Prod.mk.injEq] at h
      obtain ⟨rfl, -⟩ := h
      exact extends_writeOpcode (genProps_extends s properties s1 heq1) _
  | assignment target value sp =>
    simp only [genE] at h
    split at h
    · simp at h
    · rename_i s1 heq1
      split at h
      · simp at h
      · rename_i s2 heq2
        simp only [Prod.mk.injEq] at h
        obtain ⟨rfl, -⟩ := h
        exact extends_writeOpcode
          ((genE_extends s target s1 heq1).trans (genE_extends s1 value s2 heq2)) _
  | closure params body sp =>
    simp only [genE, Prod.mk.injEq] at h
    obtain ⟨rfl, -⟩ := h
    exact Extends.rfl s
termination_by (sizeOf e, 0)

theorem genOptOrNull_extends (s : GenState) (o : Option Expr) (s' : GenState)
    (h : genOptOrNull s o = (s', true)) : Extends s s' := by
  cases o with
  | none =>
    simp only [genOptOrNull, Prod.mk.injEq] at h
    obtain ⟨rfl, -⟩ := h
    exact extends_writeOpcode (Extends.rfl s) _
  | some e =>
    simp only [genOptOrNull] at h
    exact genE_extends s e s' h
termination_by (sizeOf o, 0)

theorem genOptOrSkip_extends (s : GenState) (o : Option Expr) (s' : GenState)
    (h : genOptOrSkip s o = (s', true)) : Extends s s' := by
  cases o with
  | none =>
    simp only [genOptOrSkip, Prod.mk.injEq] at h
    obtain ⟨rfl, -⟩ := h
    exact Extends.rfl s
  | some e =>
    simp only [genOptOrSkip] at h
    exact genE_extends s e s' h
termination_by (sizeOf o, 0)

theorem genEs_extends (s : GenState) (es : List Expr) (s' : GenState)
    (h : genEs s es = (s', true)) : Extends s s' := by
  cases es with
  | nil =>
    simp only [genEs, Prod.mk.injEq] at h
    obtain ⟨rfl, -⟩ := h
    exact Extends.rfl s
  | cons e rest =>
    simp only [genEs] at h
    split at h
    · simp at h
    · rename_i s1 heq1
      exact (genE_extends s e s1 heq1).trans (genEs_extends s1 rest s' h)
termination_by (sizeOf es, 0)

theorem genProps_extends (s : GenState) (ps : List (String × Expr)) (s' : GenState)
    (h : genProps s ps = (s', true)) : Extends s s' :=
  match ps, h with
  | [], h => by
    simp only [genProps, Prod.mk.injEq] at h
    obtain ⟨rfl, -⟩ := h
    exact Extends.rfl s
  | (key, value) :: rest, h => by
    simp only [genProps] at h
    split at h
    · simp at h
    · rename_i s1 heq1
      exact (extends_writeConstant (genE_extends s value s1 heq1) _).trans
        (genProps_extends _ rest s' h)
termination_by (sizeOf ps, 0)

theorem genS_extends (s : GenState) (st : Stmt) (s' : GenState) (h : genS s st = (s', true)) :
    Extends s s' := by
  cases st with
  | expression e sp =>
    simp only [genS] at h
    exact genE_extends s e s' h
  | variableDeclaration name e sp =>
    simp only [genS] at h
    split at h
    · simp at h
    · rename_i s1 heq1
      simp only [Prod.mk.injEq] at h
      obtain ⟨rfl, -⟩ := h
      exact extends_declareVar (genE_extends s e s1 heq1) _
  | functionDeclaration name params body sp =>
    simp only [genS] at h
    split at h
    · simp at h
    · rename_i s1 fn heq1
      simp only [Prod.mk.injEq] at h
      obtain ⟨rfl, -⟩ := h
      obtain ⟨hc1, hc2⟩ := compileFunction_frame s name params body [name] s1 fn heq1
      have E1 : Extends s s1 :=
        ⟨hc2, ⟨[], by rw [GenState.ops, GenState.ops, hc1]; simp⟩,
          ⟨[], by rw [GenState.consts, GenState.consts, hc1]; simp⟩⟩
      exact extends_writeOpcode
        (extends_writeConstants (extends_writeConstant (extends_declareGlobal E1 fn) _) _) _
termination_by (sizeOf st, 0)

theorem genSs_extends (s : GenState) (ss : List Stmt) (s' : GenState)
    (h : genSs s ss = (s', true)) : Extends s s' := by
  cases ss with
  | nil =>
    simp only [genSs, Prod.mk.injEq] at h
    obtain ⟨rfl, -⟩ := h
    exact Extends.rfl s
  | cons st rest =>
    simp only [genSs] at h
    split at h
    · simp at h
    · rename_i s1 heq1
      exact (genS_extends s st s1 heq1).trans (genSs_extends s1 rest s' h)
termination_by (sizeOf ss, 0)

theorem compileFunction_frame (s : GenState) (name : String) (params : List String)
    (body : Expr) (predefined : List String) (s' : GenState) (fn : Function)
    (h : compileFunction s name params body predefined = (s', some fn)) :
    s'.current = s.current ∧ s'.enclosing = s.enclosing := by
  have henc1 : (declareVars (declareVars (s.newFunction name params.length) params)
      predefined).enclosing = s.current :: s.enclosing := by
    rw [declareVars_enclosing, declareVars_enclosing, newFunction_enclosing]
  rw [compileFunction.eq_def] at h
  split at h
  · rename_i stmts returnExpr spb
    dsimp only at h
    split at h
    · simp at h
    · rename_i s2 heq2
      have E2 := genSs_extends _ stmts s2 heq2
      split at h
      · have henc3 : (((s2.writeConstant (.memoryAddress (.local 0))).writeOpcode
            .Get).writeOpcode .Return).enclosing = s.current :: s.enclosing := by
          rw [writeOpcode_enclosing, writeOpcode_enclosing, writeConstant_enclosing,
            E2.1, henc1]
        exact finishFunction_frame _ s.current s.enclosing s' fn henc3 h
      · split at h
        · simp at h
        · rename_i s3 heq3
          have E3 := E2.trans (genOptOrNull_extends s2 returnExpr s3 heq3)
          have henc3 : (s3.writeOpcode .Return).enclosing = s.current :: s.enclosing := by
            rw [writeOpcode_enclosing, E3.1, henc1]
          exact finishFunction_frame _ s.current s.enclosing s' fn henc3 h
  · rename_i hnotblock
    dsimp only at h
    split at h
    · simp at h
    · rename_i s2 heq2
      have E2 := genE_extends _ body s2 heq2
      split at h
      · have henc2 : s2.enclosing = s.current :: s.enclosing := by rw [E2.1, henc1]
        exact finishFunction_frame _ s.current s.enclosing s' fn henc2 h
      · have henc2 : (s2.writeOpcode .Return).enclosing = s.current :: s.enclosing := by
          rw [writeOpcode_enclosing, E2.1, henc1]
        exact finishFunction_frame _ s.current s.enclosing s' fn henc2 h
termination_by (sizeOf body, 1)

end


/-! ## Patch and emission helpers -/

theorem get?_append_cons {α : Type} (A : List α) (x : α) (B : List α) :
    (A ++ x :: B).get? A.length = some x := by
  induction A with
  | nil => rfl
  | cons a rest ih => simpa using ih

theorem set_append_cons {α : Type} (A : List α) (x y : α) (B : List α) :
    (A ++ x :: B).set A.length y = A ++ y :: B := by
  induction A with
  | nil => rfl
  | cons a rest ih => simp [ih]

/-- Patching the placeholder at index `|A|` of a chunk `A ++ x :: B`
rewrites its payload to `|B|`: with `curr_index` at `|A| + 1 + |B|`, the
patch formula `curr − index − 1` yields exactly the number of opcodes
between the placeholder and the target. -/
theorem patch_at_placeholder (t : GenState) (A : List Opcode) (x : Opcode) (B : List Opcode)
    (ho : t.ops = A ++ x :: B) :
    (t.patch ⟨A.length⟩).ops = A ++ patchOpcode x (B.length : Int) :: B := by
  simp only [GenState.patch, GenState.ops] at ho ⊢
  rw [ho, get?_append_cons]
  have harith : ((A ++ x :: B).length : Int) - (A.length : Int) - 1 = (B.length : Int) := by
    simp only [List.length_append, List.length_cons]
    push_cast
    omega
  rw [harith]
  dsimp only
  rw [set_append_cons]

theorem emittedE_spec (s : GenState) (e : Expr) (s' : GenState) (h : genE s e = (s', true)) :
    s'.ops = s.ops ++ emittedE s e := by
  obtain ⟨-, ⟨d, o⟩, -⟩ := genE_extends s e s' h
  have hd : emittedE s e = d := by
    rw [emittedE, h]
    simp only
    rw [o, List.drop_left]
  rw [hd, ← o]

theorem emittedEs_spec (s : GenState) (es : List Expr) (s' : GenState)
    (h : genEs s es = (s', true)) : s'.ops = s.ops ++ emittedEs s es := by
  obtain ⟨-, ⟨d, o⟩, -⟩ := genEs_extends s es s' h
  have hd : emittedEs s es = d := by
    rw [emittedEs, h]
    simp only
    rw [o, List.drop_left]
  rw [hd, ← o]

theorem finishFunction_upvalues (t : GenState) (s' : GenState) (fn : Function)
    (h : finishFunction t = (s', some fn)) : fn.upvalues = s'.scopeUpvalues := by
  simp only [finishFunction] at h
  split at h
  · simp only [Prod.mk.injEq, Option.some.injEq] at h
    obtain ⟨h1, h2⟩ := h
    rw [← h2, ← h1]
  · simp at h

theorem compileFunction_upvalues (s : GenState) (name : String) (params : List String)
    (body : Expr) (predefined : List String) (s' : GenState) (fn : Function)
    (h : compileFunction s name params body predefined = (s', some fn)) :
    fn.upvalues = s'.scopeUpvalues := by
  rw [compileFunction.eq_def] at h
  split at h
  · dsimp only at h
    split at h
    · simp at h
    · split at h
      · exact finishFunction_upvalues _ _ _ h
      · split at h
        · simp at h
        · exact finishFunction_upvalues _ _ _ h
  · dsimp only at h
    split at h
    · simp at h
    · split at h
      · exact finishFunction_upvalues _ _ _ h
      · exact finishFunction_upvalues _ _ _ h


/-! ## Claim theorems: generator (C3, C5, C7, C8, C9) -/

/-- C9: for every call expression, the generated opcode stream appends the
arguments' code (in order, via the list generator), then the callee's code,
then a single `Call` opcode. -/
theorem c9_theorem (s : GenState) (callee : Expr) (args : List Expr) (sp : Span)
    (h : (genE s (.call callee args sp)).2 = true) :
    (genE s (.call callee args sp)).1.ops
      = s.ops ++ emittedEs s args ++ emittedE (genEs s args).1 callee ++ [.Call] := by
  simp only [genE] at h ⊢
  rcases h1 : genEs s args with ⟨s1, f1⟩
  rw [h1] at h
  cases f1 with
  | false => simp at h
  | true =>
    dsimp only at h ⊢
    rcases h2 : genE s1 callee with ⟨s2, f2⟩
    rw [h2] at h
    cases f2 with
    | false => simp at h
    | true =>
      dsimp only at h ⊢
      have o1 : s1.ops = s.ops ++ emittedEs s args := emittedEs_spec s args s1 h1
      have o2 : s2.ops = s1.ops ++ emittedE s1 callee := emittedE_spec s1 callee s2 h2
      rw [writeOpcode_ops, o2, o1]

/-- C9, witness: calling a number literal on two number-literal arguments
from the initial state emits the two argument constants, the callee
constant, then `Call`. -/
theorem c9_witness :
    (genE initialGenState (.call (.atom (.number 7) ⟨0, 1⟩)
        [.atom (.number 1) ⟨2, 3⟩, .atom (.number 2) ⟨4, 5⟩] ⟨0, 6⟩)).1.ops
      = initialGenState.ops
          ++ emittedEs initialGenState [.atom (.number 1) ⟨2, 3⟩, .atom (.number 2) ⟨4, 5⟩]
          ++ emittedE (genEs initialGenState
              [.atom (.number 1) ⟨2, 3⟩, .atom (.number 2) ⟨4, 5⟩]).1 (.atom (.number 7) ⟨0, 1⟩)
          ++ [.Call] :=
  c9_theorem initialGenState (.atom (.number 7) ⟨0, 1⟩)
    [.atom (.number 1) ⟨2, 3⟩, .atom (.number 2) ⟨4, 5⟩] ⟨0, 6⟩
    (by simp [genE, genEs, genAtom])


theorem leaveScope_ops (s : GenState) : s.leaveScope.ops = s.ops := rfl

/-- C3, counterexample: compiling `while (true) false` from the initial
state emits `[True, Jif 2, False, Jp (-3), Null]`. The chunk position
recorded before the condition is 0 and the back-edge is emitted at
position 3, so the claimed formula `start − end − 1` demands payload
`0 − 3 − 1 = −4`, but the code emits `−3`; moreover, under the claimed
execution convention (offset applied after the pointer advanced past the
jump at index 3) the emitted `−3` would land on index 1, not on the
condition start 0. -/
theorem c3_counterexample :
    (genE initialGenState (.whileE (.atom (.boolean true) ⟨7, 11⟩)
        (.atom (.boolean false) ⟨14, 19⟩) ⟨0, 21⟩)).1.ops
      = [.True, .Jif 2, .False, .Jp (-3), .Null] ∧
    ((-3 : Int) ≠ 0 - 3 - 1) ∧
    (((3 : Int) + 1) + (-3) ≠ 0) := by
  refine ⟨?_, by decide, by decide⟩
  simp [genE, genAtom, initialGenState, GenState.enterScope, GenState.leaveScope,
    GenState.currIndex, GenState.writeOpcode, Chunk.writeOpcode, GenState.emitPatch,
    GenState.patch, patchOpcode, GenState.ops]

/-- C3, amended: the back-edge of a compiled `while` loop carries offset
`start_index − end_index`, i.e. the negative of the number of opcodes
emitted since the condition start (condition code, the patched `Jif`, and
the body code) — one less in magnitude than the claimed
`start_index − end_index − 1`; the `Jif` is patched to skip the body and
the back-edge, and `Null` is emitted as the loop's value. -/
theorem c3_theorem (s : GenState) (c b : Expr) (sp : Span)
    (h : (genE s (.whileE c b sp)).2 = true) :
    (genE s (.whileE c b sp)).1.ops
      = s.ops ++ emittedE (s.enterScope .block) c
          ++ [.Jif ((emittedE (whileBodyState s c) b).length + 1)]
          ++ emittedE (whileBodyState s c) b
          ++ [.Jp (-(((emittedE (s.enterScope .block) c).length : Int) + 1
                + ((emittedE (whileBodyState s c) b).length : Int)))]
          ++ [.Null] := by
  simp only [genE, GenState.emitPatch, whileBodyState] at h ⊢
  rcases h1 : genE (s.enterScope .block) c with ⟨s1, f1⟩
  rw [h1] at h
  cases f1 with
  | false => simp at h
  | true =>
    dsimp only at h ⊢
    rcases h3 : genE (s1.writeOpcode (.Jif 0)) b with ⟨s3, f3⟩
    rw [h3] at h
    cases f3 with
    | false => simp at h
    | true =>
      dsimp only at h ⊢
      have o1 : s1.ops = s.ops ++ emittedE (s.enterScope .block) c :=
        emittedE_spec (s.enterScope .block) c s1 h1
      have o3 : s3.ops = (s.ops ++ emittedE (s.enterScope .block) c)
          ++ .Jif 0 :: emittedE (s1.writeOpcode (.Jif 0)) b := by
        have hx := emittedE_spec (s1.writeOpcode (.Jif 0)) b s3 h3
        rw [writeOpcode_ops, o1] at hx
        rw [hx]
        simp [List.append_assoc]
      have hidx : s1.currIndex = (s.ops ++ emittedE (s.enterScope .block) c).length := by
        rw [GenState.currIndex, ← GenState.ops, o1]
      have harith : (-((s3.currIndex : Int) - ((s.enterScope .block).currIndex : Int)))
          = -(((emittedE (s.enterScope .block) c).length : Int) + 1
              + ((emittedE (s1.writeOpcode (.Jif 0)) b).length : Int)) := by
        have h3l : s3.currIndex = s.ops.length + (emittedE (s.enterScope .block) c).length
            + (1 + (emittedE (s1.writeOpcode (.Jif 0)) b).length) := by
          rw [GenState.currIndex, ← GenState.ops, o3]
          simp [List.length_append]
          omega
        have hsl : (s.enterScope .block).currIndex = s.ops.length := rfl
        rw [h3l, hsl]
        push_cast
        ring
      rw [harith, hidx]
      have o4 : (s3.writeOpcode (.Jp (-(((emittedE (s.enterScope .block) c).length : Int) + 1
            + ((emittedE (s1.writeOpcode (.Jif 0)) b).length : Int))))).ops
          = (s.ops ++ emittedE (s.enterScope .block) c)
            ++ .Jif 0 :: (emittedE (s1.writeOpcode (.Jif 0)) b
              ++ [.Jp (-(((emittedE (s.enterScope .block) c).length : Int) + 1
                + ((emittedE (s1.writeOpcode (.Jif 0)) b).length : Int)))]) := by
        rw [writeOpcode_ops, o3]
        simp [List.append_assoc]
      have o5 := patch_at_placeholder _ (s.ops ++ emittedE (s.enterScope .block) c) (.Jif 0)
        (emittedE (s1.writeOpcode (.Jif 0)) b
          ++ [.Jp (-(((emittedE (s.enterScope .block) c).length : Int) + 1
            + ((emittedE (s1.writeOpcode (.Jif 0)) b).length : Int)))]) o4
      rw [leaveScope_ops, writeOpcode_ops, o5]
      simp [patchOpcode, List.append_assoc, List.length_append]

/-- C3, witness: the amended back-edge shape at the concrete loop
`while (true) false` from the initial state. -/
theorem c3_witness :
    (genE initialGenState (.whileE (.atom (.boolean true) ⟨7, 11⟩)
        (.atom (.boolean false) ⟨14, 19⟩) ⟨0, 21⟩)).1.ops
      = initialGenState.ops
          ++ emittedE (initialGenState.enterScope .block) (.atom (.boolean true) ⟨7, 11⟩)
          ++ [.Jif ((emittedE (whileBodyState initialGenState (.atom (.boolean true) ⟨7, 11⟩))
              (.atom (.boolean false) ⟨14, 19⟩)).length + 1)]
          ++ emittedE (whileBodyState initialGenState (.atom (.boolean true) ⟨7, 11⟩))
              (.atom (.boolean false) ⟨14, 19⟩)
          ++ [.Jp (-(((emittedE (initialGenState.enterScope .block)
                (.atom (.boolean true) ⟨7, 11⟩)).length : Int) + 1
                + ((emittedE (whileBodyState initialGenState (.atom (.boolean true) ⟨7, 11⟩))
                (.atom (.boolean false) ⟨14, 19⟩)).length : Int)))]
          ++ [.Null] :=
  c3_theorem initialGenState (.atom (.boolean true) ⟨7, 11⟩) (.atom (.boolean false) ⟨14, 19⟩)
    ⟨0, 21⟩ (by simp [genE, genAtom, GenState.emitPatch])


/-- C5: for an if-expression with both branches, the generated stream is
the condition code, `Jif` patched to `len(then) + 1`, the then-branch
code, `Jp` patched to `len(else)`, then the else-branch code — the two
placeholders being resolved by the `current_index − patch_index − 1`
patch rule embodied in `GenState.patch`. -/
theorem c5_theorem (s : GenState) (c b el : Expr) (sp : Span)
    (h : (genE s (.ifE c b (some el) sp)).2 = true) :
    (genE s (.ifE c b (some el) sp)).1.ops
      = s.ops ++ emittedE s c
          ++ [.Jif ((emittedE (ifThenState s c) b).length + 1)]
          ++ emittedE (ifThenState s c) b
          ++ [.Jp ((emittedE (ifElseState s c b) el).length : Int)]
          ++ emittedE (ifElseState s c b) el := by
  simp only [genE, GenState.emitPatch, ifThenState, ifElseState, genOptOrSkip] at h ⊢
  rcases h1 : genE s c with ⟨s1, f1⟩
  rw [h1] at h
  cases f1 with
  | false => simp at h
  | true =>
    dsimp only at h ⊢
    rcases h3 : genE (s1.writeOpcode (.Jif 0)) b with ⟨s3, f3⟩
    rw [h3] at h
    cases f3 with
    | false => simp at h
    | true =>
      dsimp only at h ⊢
      rcases h6 : genE ((s3.writeOpcode (.Jp 0)).patch ⟨s1.currIndex⟩) el with ⟨s6, f6⟩
      rw [h6] at h
      cases f6 with
      | false => simp at h
      | true =>
        dsimp only at h ⊢
        have o1 : s1.ops = s.ops ++ emittedE s c := emittedE_spec s c s1 h1
        have o3 : s3.ops = (s.ops ++ emittedE s c)
            ++ .Jif 0 :: emittedE (s1.writeOpcode (.Jif 0)) b := by
          have hx := emittedE_spec (s1.writeOpcode (.Jif 0)) b s3 h3
          rw [writeOpcode_ops, o1] at hx
          rw [hx]
          simp [List.append_assoc]
        have hidx : s1.currIndex = (s.ops ++ emittedE s c).length := by
          rw [GenState.currIndex, ← GenState.ops, o1]
        have o4 : (s3.writeOpcode (.Jp 0)).ops
            = (s.ops ++ emittedE s c)
              ++ .Jif 0 :: (emittedE (s1.writeOpcode (.Jif 0)) b ++ [.Jp 0]) := by
          rw [writeOpcode_ops, o3]
          simp [List.append_assoc]
        rw [hidx] at h6 ⊢
        have o5 := patch_at_placeholder _ (s.ops ++ emittedE s c) (.Jif 0)
          (emittedE (s1.writeOpcode (.Jif 0)) b ++ [.Jp 0]) o4
        have o6 : s6.ops = ((s3.writeOpcode (.Jp 0)).patch
            ⟨(s.ops ++ emittedE s c).length⟩).ops
            ++ emittedE ((s3.writeOpcode (.Jp 0)).patch ⟨(s.ops ++ emittedE s c).length⟩) el :=
          emittedE_spec _ el s6 h6
        have o6' : s6.ops = ((s.ops ++ emittedE s c)
              ++ patchOpcode (.Jif 0)
                ((emittedE (s1.writeOpcode (.Jif 0)) b ++ [Opcode.Jp 0]).length : Int)
              :: emittedE (s1.writeOpcode (.Jif 0)) b)
            ++ .Jp 0 :: emittedE ((s3.writeOpcode (.Jp 0)).patch
                ⟨(s.ops ++ emittedE s c).length⟩) el := by
          rw [o6, o5]
          simp [List.append_assoc]
        have hidx2 : s3.currIndex = ((s.ops ++ emittedE s c)
            ++ patchOpcode (.Jif 0)
              ((emittedE (s1.writeOpcode (.Jif 0)) b ++ [Opcode.Jp 0]).length : Int)
            :: emittedE (s1.writeOpcode (.Jif 0)) b).length := by
          rw [GenState.currIndex, ← GenState.ops, o3]
          simp [List.length_append, List.length_cons]
        rw [hidx2]
        have o7 := patch_at_placeholder s6 ((s.ops ++ emittedE s c)
            ++ patchOpcode (.Jif 0)
              ((emittedE (s1.writeOpcode (.Jif 0)) b ++ [Opcode.Jp 0]).length : Int)
            :: emittedE (s1.writeOpcode (.Jif 0)) b) (.Jp 0)
          (emittedE ((s3.writeOpcode (.Jp 0)).patch ⟨(s.ops ++ emittedE s c).length⟩) el) o6'
        rw [o7]
        simp [patchOpcode, List.append_assoc, List.length_append]

/-- C5, witness: `if true then 1 else 2` from the initial state, through
the amended theorem; the emitted stream is the condition, `Jif 2`, the
then constant, `Jp 1`, the else constant. -/
theorem c5_witness :
    (genE initialGenState (.ifE (.atom (.boolean true) ⟨0, 1⟩) (.atom (.number 1) ⟨2, 3⟩)
        (some (.atom (.number 2) ⟨4, 5⟩)) ⟨0, 5⟩)).1.ops
      = initialGenState.ops ++ emittedE initialGenState (.atom (.boolean true) ⟨0, 1⟩)
          ++ [.Jif ((emittedE (ifThenState initialGenState (.atom (.boolean true) ⟨0, 1⟩))
              (.atom (.number 1) ⟨2, 3⟩)).length + 1)]
          ++ emittedE (ifThenState initialGenState (.atom (.boolean true) ⟨0, 1⟩))
              (.atom (.number 1) ⟨2, 3⟩)
          ++ [.Jp ((emittedE (ifElseState initialGenState (.atom (.boolean true) ⟨0, 1⟩)
              (.atom (.number 1) ⟨2, 3⟩)) (.atom (.number 2) ⟨4, 5⟩)).length : Int)]
          ++ emittedE (ifElseState initialGenState (.atom (.boolean true) ⟨0, 1⟩)
              (.atom (.number 1) ⟨2, 3⟩)) (.atom (.number 2) ⟨4, 5⟩) :=
  c5_theorem initialGenState (.atom (.boolean true) ⟨0, 1⟩) (.atom (.number 1) ⟨2, 3⟩)
    (.atom (.number 2) ⟨4, 5⟩) ⟨0, 5⟩
    (by simp [genE, genAtom, GenState.emitPatch, genOptOrSkip])


theorem declareGlobal_scopeUpvalues (s : GenState) (f : Function) :
    (s.declareGlobal f).1.scopeUpvalues = s.scopeUpvalues := by
  simp only [GenState.declareGlobal, GenState.scopeUpvalues]
  cases hs : ({ s with globals := s.globals ++ [f] } : GenState).scopes <;>
    simp [GenState.declareVar, hs]

/-- C7: after a function declaration's body is compiled and the function
registered as a global, the generator emits exactly one constant holding
the function's GlobalPointer, then one MemoryAddress constant per upvalue
descriptor of the function (`upvalueAddressConstant` maps an `is_local`
descriptor to a Local address and any other to an Upvalue address), then
`CreateClosure(N)` with `N` the number of those descriptors — which equals
the function's own descriptor count (last conjunct). -/
theorem c7_theorem (s : GenState) (name : String) (params : List String) (body : Expr)
    (sp : Span) (s1 : GenState) (fn : Function)
    (h : compileFunction s name params body [name] = (s1, some fn)) :
    (genS s (.functionDeclaration name params body sp)).2 = true ∧
    (genS s (.functionDeclaration name params body sp)).1.ops
      = (s1.declareGlobal fn).1.ops
          ++ [.Constant (s1.declareGlobal fn).1.consts.length]
          ++ (List.range (s1.declareGlobal fn).1.scopeUpvalues.length).map
              (fun i => .Constant ((s1.declareGlobal fn).1.consts.length + 1 + i))
          ++ [.CreateClosure (s1.declareGlobal fn).1.scopeUpvalues.length] ∧
    (genS s (.functionDeclaration name params body sp)).1.consts
      = (s1.declareGlobal fn).1.consts
          ++ [.globalPointer (s1.declareGlobal fn).2]
          ++ ((s1.declareGlobal fn).1.scopeUpvalues.map upvalueAddressConstant) ∧
    fn.upvalues = (s1.declareGlobal fn).1.scopeUpvalues := by
  have hup : fn.upvalues = (s1.declareGlobal fn).1.scopeUpvalues := by
    rw [declareGlobal_scopeUpvalues]
    exact compileFunction_upvalues s name params body [name] s1 fn h
  have hrw : genS s (.functionDeclaration name params body sp)
      = ((writeConstants ((s1.declareGlobal fn).1.writeConstant
            (.globalPointer (s1.declareGlobal fn).2))
            ((s1.declareGlobal fn).1.scopeUpvalues.map upvalueAddressConstant)).writeOpcode
          (.CreateClosure (s1.declareGlobal fn).1.scopeUpvalues.length), true) := by
    simp only [genS, h]
  obtain ⟨w1, w2, w3⟩ := writeConstants_spec ((s1.declareGlobal fn).1.writeConstant
    (.globalPointer (s1.declareGlobal fn).2))
    ((s1.declareGlobal fn).1.scopeUpvalues.map upvalueAddressConstant)
  refine ⟨by rw [hrw], ?_, ?_, hup⟩
  · rw [hrw]
    show (writeConstants _ _).ops ++ [_] = _
    rw [w1, writeConstant_ops, writeConstant_consts]
    simp only [List.length_map, List.length_append, List.length_singleton, List.append_assoc,
      List.cons_append, List.nil_append]
  · rw [hrw]
    show (writeConstants _ _).consts = _
    rw [w2, writeConstant_consts]

/-- C7, witness: declaring `fn f() { }` from the initial state, through the
theorem at the concrete compile result (a function with no free variables,
so the descriptor list is empty and the emission is the GlobalPointer
constant followed by `CreateClosure 0`). -/
theorem c7_witness :
    (genS initialGenState (.functionDeclaration "f" [] (.block [] none ⟨0, 1⟩) ⟨0, 2⟩)).2 = true ∧
    (genS initialGenState (.functionDeclaration "f" [] (.block [] none ⟨0, 1⟩) ⟨0, 2⟩)).1.ops
      = (initialGenState.declareGlobal ⟨"f", 0, ⟨[.Null, .Return], []⟩, []⟩).1.ops
          ++ [.Constant (initialGenState.declareGlobal
              ⟨"f", 0, ⟨[.Null, .Return], []⟩, []⟩).1.consts.length]
          ++ (List.range (initialGenState.declareGlobal
              ⟨"f", 0, ⟨[.Null, .Return], []⟩, []⟩).1.scopeUpvalues.length).map
              (fun i => .Constant ((initialGenState.declareGlobal
                ⟨"f", 0, ⟨[.Null, .Return], []⟩, []⟩).1.consts.length + 1 + i))
          ++ [.CreateClosure (initialGenState.declareGlobal
              ⟨"f", 0, ⟨[.Null, .Return], []⟩, []⟩).1.scopeUpvalues.length] := by
  have h := c7_theorem initialGenState "f" [] (.block [] none ⟨0, 1⟩) ⟨0, 2⟩ initialGenState
    ⟨"f", 0, ⟨[.Null, .Return], []⟩, []⟩
    (by simp [compileFunction, genSs, genOptOrNull, declareVars, GenState.newFunction,
      GenState.declareVar, GenState.writeOpcode, Chunk.writeOpcode, finishFunction,
      GenState.scopeUpvalues, initialGenState, CONSTRUCTOR_NAME])
  exact ⟨h.1, h.2.1⟩

/-- C8: a constructor whose body is a single expression (not a block) is
compiled without the instance-pointer epilogue: the emitted chunk is just
the body's code — it neither pushes the Local(0) address nor executes
`Get` nor ends in `Return` (the code only emits that epilogue in the
block-body arm, as the second conjunct shows for contrast). -/
theorem c8_theorem :
    compileFunction initialGenState CONSTRUCTOR_NAME [] (.atom (.number 1) ⟨18, 19⟩) ["this"]
      = (initialGenState, some ⟨CONSTRUCTOR_NAME, 0, ⟨[.Constant 0], [.number 1]⟩, []⟩) ∧
    (⟨[.Constant 0], [.number 1]⟩ : Chunk).opcodes.getLast? ≠ some .Return ∧
    (compileFunction initialGenState CONSTRUCTOR_NAME [] (.block [] none ⟨18, 20⟩) ["this"]).2
      = some ⟨CONSTRUCTOR_NAME, 0, ⟨[.Constant 0, .Get, .Return],
          [.memoryAddress (.local 0)]⟩, []⟩ := by
  refine ⟨?_, by decide, ?_⟩ <;>
    simp [compileFunction, genE, genAtom, genSs, genOptOrNull, declareVars,
      GenState.newFunction, GenState.declareVar, GenState.writeConstant, Chunk.writeConstant,
      GenState.writeOpcode, Chunk.writeOpcode, finishFunction, GenState.scopeUpvalues,
      initialGenState, CONSTRUCTOR_NAME]

end Gravitas
